import Mathlib

/-! Verification of the runrunrun rule dispatcher.

This file gives a shallow embedding of the core of the program: the rule and
pattern data model, the per-profile rule set builder and its alias resolver,
the compiled matcher with its priority semantics, the capture and input
substitution algorithm, the recursive configuration loader with its visited-set
and profile filter, and the fallback dispatch loop of main.rs. External
collaborators (the regex and globset crates, shell quoting, the process
boundary) enter as explicit function parameters, following the specification
which treats them as assumed-correct primitives. Theorems about each component
follow the definitions. -/

namespace RunRunRun

deriving instance DecidableEq for Except

/- The types module of the crate is not part of the snapshot; from usage in
rule_set.rs and rrr.rs these are plain strings. -/
abbrev AliasIdentifier := String
abbrev ProfileIdentifier := String
abbrev ActionCommand := String

/-! Character-list primitives mirroring the Rust str methods used by the
substitution code. -/

/-- Substring test on character lists, mirroring the Rust str contains method:
true exactly when pat occurs contiguously in the subject. -/
def containsSub (pat : List Char) : List Char → Bool
  | [] => pat.isEmpty
  | c :: rest => pat.isPrefixOf (c :: rest) || containsSub pat rest

/-- Fueled worker for replaceSub; the fuel makes the recursion structural so
that concrete evaluations reduce definitionally. With fuel at least the length
of the subject the fuel never runs out. -/
def replaceSubAux (pat rep : List Char) : Nat → List Char → List Char
  | _, [] => []
  | 0, s => s
  | n + 1, c :: rest =>
    if pat ≠ [] ∧ pat.isPrefixOf (c :: rest) then
      rep ++ replaceSubAux pat rep n ((c :: rest).drop pat.length)
    else
      c :: replaceSubAux pat rep n rest

/-- Replacement of every non-overlapping occurrence of pat by rep, scanning
left to right, mirroring the Rust str replace method for nonempty patterns
(the code only ever replaces the nonempty tags %s and %1, %2, ...). -/
def replaceSub (pat rep s : List Char) : List Char :=
  replaceSubAux pat rep s.length s

/-- Rust str contains, lifted to String. -/
def strContains (s pat : String) : Bool := containsSub pat.data s.data

/-- Rust str replace, lifted to String. -/
def strReplace (s pat rep : String) : String := ⟨replaceSub pat.data rep.data s.data⟩

/-! Config model (rule_set.rs). -/

/-- Origin of the rule creation in the config (rule_set.rs, ConfigOrigin).
Diagnostic only; never affects matching. -/
structure ConfigOrigin where
  file : String
  line : Nat
  column : Nat
  deriving DecidableEq

/-- Whether the rule was explicitly stated in config or created from an import
(rule_set.rs, RuleOrigin). -/
inductive RuleOrigin where
  | Explicit
  | Imported (source : String)
  deriving DecidableEq

/-- Pattern that a rule should match (rule_set.rs, Pattern). -/
inductive Pattern where
  | Regex (text : String)
  | Glob (text : String)
  deriving DecidableEq

/-- Action associated with a rule (rule_set.rs, Action). -/
inductive Action where
  | Alias (identifier : AliasIdentifier)
  | Command (command : ActionCommand)
  deriving DecidableEq

/-- A rule mapping a pattern to an action (rule_set.rs, Rule). The two OnceCell
fields resolved and execution are modelled as Option values: none is the empty
cell, and the write-once discipline of OnceCell::set is enforced in the
functions below, where a second store is the panic of the expect call. -/
structure Rule where
  pattern : Pattern
  action : Action
  resolved : Option ActionCommand
  execution : Option ActionCommand
  case_insensitive : Bool
  rule_origin : RuleOrigin
  config_origin : ConfigOrigin
  deriving DecidableEq

/-- External matching primitives: the regex and globset crates are external
collaborators, consumed as assumed-correct primitives per the specification.
rxMatch and glMatch decide whether one compiled pattern (with the
case-insensitivity flag that was baked in at compile time) matches an input.
rxCaps returns, when the regex matches the input, the group captures with group
0 (the whole match) first, each group none when it did not participate; it
returns none when the regex does not match. The CompileOk fields record which
pattern texts the external compilers accept. quote is utils::quote
(shlex::try_quote); its only failure mode, NUL bytes in the argument, is
outside the model. -/
structure Engines where
  rxMatch : Bool → String → String → Bool
  glMatch : Bool → String → String → Bool
  rxCaps : Bool → String → String → Option (List (Option String))
  rxCompileOk : Bool → String → Bool
  rxSetCompileOk : Bool → List String → Bool
  glCompileOk : Bool → String → Bool
  quote : String → String

/-- Error values of the engine: the anyhow errors of the source, plus panics
(expect calls on the OnceCell fields and on the current-profile lookup),
modelled as the panic constructor. -/
inductive RrrError where
  | aliasNotFound (identifier profile : String)
  | profileNotFound (profile : String)
  | ioError (path : String)
  | importDisabled
  | invalidAliasInMatch (text : String)
  | invalidMeta (text : String)
  | invalidAliasLine (text : String)
  | notPrepared
  | ruleShouldMatch
  | regexCompileError (pattern : String)
  | regexSetCompileError
  | globCompileError (pattern : String)
  | execFailed (message : String)
  | panic (message : String)
  deriving DecidableEq

/-- Rendering of errors to text, following the source format strings (the
source wraps interpolated names in single quote characters; those quote
characters are omitted here, the interpolated data is kept). -/
def RrrError.message : RrrError → String
  | .aliasNotFound a p => "Alias " ++ a ++ " does not exist in profile " ++ p
  | .profileNotFound p => "Profile " ++ p ++ " does not exist"
  | .ioError p => "cannot read " ++ p
  | .importDisabled => "not compiled with import feature"
  | .invalidAliasInMatch t => "Invalid alias in match " ++ t
  | .invalidMeta t => "Invalid meta " ++ t
  | .invalidAliasLine t => "Invalid alias " ++ t
  | .notPrepared => "Rule was not prepared for execution."
  | .ruleShouldMatch => "The rule should already match in order to capture"
  | .regexCompileError p => "regex error " ++ p
  | .regexSetCompileError => "regex set error"
  | .globCompileError p => "glob error " ++ p
  | .execFailed m => "executing failed " ++ m
  | .panic m => m

/-! Rule operations (rule_set.rs, impl Rule). -/

/-- Raw pattern text of the rule (rule_set.rs, Rule::pattern_as_str). -/
def Rule.pattern_as_str (r : Rule) : String :=
  match r.pattern with
  | .Regex p => p
  | .Glob p => p

/-- rule_set.rs, Rule::substitute_file: when the action does not contain %s, a
trailing " %s" is appended first; then every occurrence of %s is replaced by
the shell-quoted input. -/
def Rule.substitute_file (E : Engines) (action : String) (input : String) : String :=
  let action_with_tag := if strContains action "%s" then action else action ++ " %s"
  strReplace action_with_tag "%s" (E.quote input)

/-- Worker for substitute_captures: the Rust loop enumerates the captures from
index 0 and replaces the tag %(i+1) by the quoted capture, folding the action
through the replacements in order. -/
def substCapsFrom (E : Engines) : Nat → List String → String → String
  | _, [], action => action
  | i, cap :: caps, action =>
    substCapsFrom E (i + 1) caps (strReplace action ("%" ++ Nat.repr (i + 1)) (E.quote cap))

/-- rule_set.rs, Rule::substitute_captures. -/
def Rule.substitute_captures (E : Engines) (action : String) (captures : List String) : String :=
  substCapsFrom E 0 captures action

/-- rule_set.rs, Rule::captures: glob patterns yield no captures; for a regex
pattern the pattern text is compiled with the case flag and run against the
input; group 0 (the whole match) is skipped and groups that did not participate
are dropped from the list. -/
def Rule.captures (E : Engines) (r : Rule) (input : String) : Except RrrError (List String) :=
  match r.pattern with
  | .Glob _ => .ok []
  | .Regex _ =>
    if E.rxCompileOk r.case_insensitive r.pattern_as_str then
      match E.rxCaps r.case_insensitive r.pattern_as_str input with
      | none => .error .ruleShouldMatch
      | some groups => .ok ((groups.drop 1).filterMap id)
    else .error (.regexCompileError r.pattern_as_str)

/-- rule_set.rs, Rule::substitute: substitute the captures and then the input
into the resolved action, and store the result in the write-once execution
cell. The expect calls become panic errors: when the rule is not resolved, and
when the execution cell is already filled. On success the updated rule is
returned (the Rust code mutates in place through the OnceCell). -/
def Rule.substitute (E : Engines) (r : Rule) (captures : List String) (input : String) :
    Except RrrError Rule :=
  match r.resolved with
  | none => .error (.panic "rule must be resolved")
  | some resolved_action =>
    let executable_action :=
      Rule.substitute_file E (Rule.substitute_captures E resolved_action captures) input
    match r.execution with
    | some _ => .error (.panic "rule should not be ready for execution")
    | none => .ok { r with execution := some executable_action }

/-- rule_set.rs, Rule::prepare. -/
def Rule.prepare (E : Engines) (r : Rule) (input : String) : Except RrrError Rule := do
  let captures ← r.captures E input
  r.substitute E captures input

/-- rule_set.rs, Rule::get_executed_action. -/
def Rule.get_executed_action (r : Rule) : Except RrrError String :=
  match r.execution with
  | some a => .ok a
  | none => .error .notPrepared

/-- rule_set.rs, Rule::is_executable. -/
def Rule.is_executable (r : Rule) : Bool := r.execution.isSome

/-- Modelled from the spec: the execution modes of the dispatcher. The snapshot
of rule_set.rs still exposes a boolean fork flag on Rule::exec, while main.rs
already calls it with an ExecutionType of three modes; the ExecutionType
declaration itself is missing from the snapshot, so the three modes described
in the spec (exec, fork, wait-and-check) are modelled here under the names
main.rs uses. -/
inductive ExecutionType where
  | Exec
  | Fork
  | WaitSuccessSignalOk
  deriving DecidableEq

/-- Modelled from the spec: the process-execution boundary. Running a prepared
command string under an execution mode is requested from the operating system;
its observable outcome (for wait-and-check: spawn failure or non-zero exit is
an error) is an external collaborator. -/
structure OsBoundary where
  osRun : ExecutionType → String → Except RrrError Unit

/-- rule_set.rs, Rule::exec, at the three-mode interface main.rs uses: fails
with the not-prepared error when the execution cell is empty, otherwise defers
to the OS boundary (the shell argv handling, sh -c by default, happens at that
boundary). -/
def Rule.exec (os : OsBoundary) (t : ExecutionType) (r : Rule) : Except RrrError Unit :=
  match r.execution with
  | none => .error .notPrepared
  | some command => os.osRun t command

/-! Rule set builder (rule_set.rs, RuleSetBuilder). -/

/-- rule_set.rs, RuleSetBuilder: the per-profile accumulator. The alias field
of the source (a HashMap; alias is a reserved word in Lean, so the field takes
the spec name alias table) is modelled as an association list where insertion
prepends, so that lookup, which returns the first binding, realises the
last-write-wins overwrite of HashMap::insert. -/
structure RuleSetBuilder where
  profile : ProfileIdentifier
  case_insensitive : Bool
  alias_table : List (AliasIdentifier × ActionCommand)
  regex_rules : List Rule
  glob_rules : List Rule
  deriving DecidableEq

/-- rule_set.rs, RuleSetBuilder::new. -/
def RuleSetBuilder.new (profile : ProfileIdentifier) (case_insensitive : Bool) :
    RuleSetBuilder :=
  { profile, case_insensitive, alias_table := [], regex_rules := [], glob_rules := [] }

/-- rule_set.rs, RuleSetBuilder::alias (named insert_alias here because the
field projection already takes the name). -/
def RuleSetBuilder.insert_alias (b : RuleSetBuilder) (identifier : AliasIdentifier)
    (action_command : ActionCommand) : RuleSetBuilder :=
  { b with alias_table := (identifier, action_command) :: b.alias_table }

/-- rule_set.rs, RuleSetBuilder::rule: create the rule with empty cells and
push it at the end of the list of its pattern kind (declaration order). -/
def RuleSetBuilder.rule (b : RuleSetBuilder) (pattern : Pattern) (action : Action)
    (case_insensitive : Bool) (rule_origin : RuleOrigin) (config_origin : ConfigOrigin) :
    RuleSetBuilder :=
  let r : Rule := { pattern, action, resolved := none, execution := none,
                    case_insensitive, rule_origin, config_origin }
  match r.pattern with
  | .Regex _ => { b with regex_rules := b.regex_rules ++ [r] }
  | .Glob _ => { b with glob_rules := b.glob_rules ++ [r] }

/-- rule_set.rs, RuleSetBuilder::rule_with_command (rrr.rs calls this method
rule_with_action; the snapshot of rule_set.rs declares it as
rule_with_command). -/
def RuleSetBuilder.rule_with_command (b : RuleSetBuilder) (config_origin : ConfigOrigin)
    (pattern : Pattern) (action_command : ActionCommand) : RuleSetBuilder :=
  b.rule pattern (.Command action_command) b.case_insensitive .Explicit config_origin

/-- rule_set.rs, RuleSetBuilder::rule_with_alias (the source returns a Result
but has no failure path). -/
def RuleSetBuilder.rule_with_alias (b : RuleSetBuilder) (config_origin : ConfigOrigin)
    (pattern : Pattern) (alias_identifier : AliasIdentifier) : RuleSetBuilder :=
  b.rule pattern (.Alias alias_identifier) b.case_insensitive .Explicit config_origin

/-- rule_set.rs, the RuleResolver impl for RuleSetBuilder: a literal command
resolves to itself; an alias reference is looked up in the profile alias
table, and failure names both the identifier and the profile. -/
def RuleSetBuilder.resolveAction (b : RuleSetBuilder) (a : Action) :
    Except RrrError ActionCommand :=
  match a with
  | .Command action_command => .ok action_command
  | .Alias alias_identifier =>
    match b.alias_table.lookup alias_identifier with
    | some s => .ok s
    | none => .error (.aliasNotFound alias_identifier b.profile)

/-- rule_set.rs, Rule::resolve: resolve the action through the builder and
store it in the write-once resolved cell (the expect on a second store is a
panic error). -/
def Rule.resolve (b : RuleSetBuilder) (r : Rule) : Except RrrError Rule := do
  let resolved_action ← b.resolveAction r.action
  match r.resolved with
  | some _ => .error (.panic "rule should not be already resolved")
  | none => .ok { r with resolved := some resolved_action }

/-- rule_set.rs, RuleSetBuilder::resolve: resolve a rule sequence in order,
aborting at the first failure. -/
def RuleSetBuilder.resolve (b : RuleSetBuilder) : List Rule → Except RrrError (List Rule)
  | [] => .ok []
  | r :: rest => do
    let r2 ← r.resolve b
    let rest2 ← b.resolve rest
    .ok (r2 :: rest2)

/-- rule_set.rs, RuleSet: the compiled result of a build. The compiled RegexSet
and GlobSet are modelled by their pattern-text lists (matching defers to the
Engines); the builder inside holds the resolved rules, both sequences reversed
into priority order. -/
structure RuleSet where
  regex_set : List String
  glob_set : List String
  builder : RuleSetBuilder
  deriving DecidableEq

/-- rule_set.rs, RuleSetBuilder::build: resolve every rule (regex sequence
first), reverse both sequences so that lookups returning the first structural
match return the most recently declared rule, then compile the two matchers;
compilation success of the pattern texts is decided by the external Engines
(the glob patterns are compiled one by one, stopping at the first failure). -/
def RuleSetBuilder.build (E : Engines) (b : RuleSetBuilder) : Except RrrError RuleSet := do
  let regex_resolved ← b.resolve b.regex_rules
  let glob_resolved ← b.resolve b.glob_rules
  let regex_rules := regex_resolved.reverse
  let glob_rules := glob_resolved.reverse
  let regex_patterns := regex_rules.map Rule.pattern_as_str
  if E.rxSetCompileOk b.case_insensitive regex_patterns then
    match glob_rules.find? (fun r => !(E.glCompileOk b.case_insensitive r.pattern_as_str)) with
    | some r => .error (.globCompileError r.pattern_as_str)
    | none =>
      .ok { regex_set := regex_patterns,
            glob_set := glob_rules.map Rule.pattern_as_str,
            builder := { b with regex_rules := regex_rules, glob_rules := glob_rules } }
  else .error .regexSetCompileError

/-! Matching (rule_set.rs, impl RuleSet). -/

/-- First matching index of a compiled pattern set: the matches methods of
RegexSet and GlobSet return the matching indices in ascending order, and the
source takes the first, hence the least matching index. -/
def firstMatchIdx (matchesPat : String → Bool) : List String → Option Nat
  | [] => none
  | p :: ps =>
    if matchesPat p then some 0 else (firstMatchIdx matchesPat ps).map (· + 1)

/-- rule_set.rs, RuleSet::match_glob. The source indexes the rule list with
expect; for a set produced by build the pattern list and the rule list are
aligned and the index is always in range, so get? stands in for the indexing. -/
def RuleSet.match_glob (E : Engines) (rs : RuleSet) (input : String) : Option Rule :=
  match firstMatchIdx (fun p => E.glMatch rs.builder.case_insensitive p input) rs.glob_set with
  | some index => rs.builder.glob_rules.get? index
  | none => none

/-- rule_set.rs, RuleSet::match_regex, analogous to match_glob. -/
def RuleSet.match_regex (E : Engines) (rs : RuleSet) (input : String) : Option Rule :=
  match firstMatchIdx (fun p => E.rxMatch rs.builder.case_insensitive p input) rs.regex_set with
  | some index => rs.builder.regex_rules.get? index
  | none => none

/-- rule_set.rs, RuleSet::match — the single-match query (match is a reserved
word in Lean; the spec names this query match_one): the first regex match if
any, otherwise the first glob match, otherwise nothing. -/
def RuleSet.match_one (E : Engines) (rs : RuleSet) (input : String) : Option Rule :=
  match rs.match_regex E input with
  | some r => some r
  | none => rs.match_glob E input

/-- Modelled from the spec: RuleSet::matches is called by the fallback
dispatcher in main.rs but is absent from rule_set.rs in this snapshot. Per the
spec it returns the full ordered list of every matching rule, regex matches in
priority order before glob matches in priority order; the stored rule
sequences of a built set are already in priority order. -/
def RuleSet.matches (E : Engines) (rs : RuleSet) (input : String) : List Rule :=
  rs.builder.regex_rules.filter
      (fun r => E.rxMatch rs.builder.case_insensitive r.pattern_as_str input)
    ++ rs.builder.glob_rules.filter
      (fun r => E.glMatch rs.builder.case_insensitive r.pattern_as_str input)

/-- Bool test for the pattern kind of a rule. -/
def Pattern.isRegexPat : Pattern → Bool
  | .Regex _ => true
  | .Glob _ => false

/-! Loader state (rrr.rs). -/

/-- rrr.rs, RrrBuilder: the loading state. The RefCell around the profile map
is interior mutability only; the map itself is modelled as an association list
(profile switches insert a key at most once, so keys stay unique). -/
structure RrrBuilder where
  loaded_config_files : List String
  profiles : List (ProfileIdentifier × RuleSetBuilder)
  current_profile : ProfileIdentifier
  case_insensitive : Bool
  only_profiles : Option (List String)
  deriving DecidableEq

/-- rrr.rs, RrrBuilder::new: start with the default profile, no file loaded. -/
def RrrBuilder.new (case_insensitive : Bool) (only_profiles : Option (List String)) :
    RrrBuilder :=
  { loaded_config_files := []
    profiles := [("default", RuleSetBuilder.new "default" case_insensitive)]
    current_profile := "default"
    case_insensitive, only_profiles }

/-- rrr.rs, Rrr: the built dispatcher, one rule set per profile. -/
structure Rrr where
  profiles : List (ProfileIdentifier × RuleSet)
  deriving DecidableEq

/-- rrr.rs, Rrr::profile: look the profile up, with an error naming the
requested profile when it does not exist. The lookup is read-only. -/
def Rrr.profile (rrr : Rrr) (profile_identifier : ProfileIdentifier) :
    Except RrrError RuleSet :=
  match rrr.profiles.lookup profile_identifier with
  | some rule_set => .ok rule_set
  | none => .error (.profileNotFound profile_identifier)

/-- Target of a match line after lexing: an alias identifier, a literal
command, or the invalid-alias token the grammar can produce (rrr.rs rejects
the last with an error in parse_line, before reaching parse_match). Quoted
strings arrive already unquoted: parse_string and the pest grammar are
external collaborators. -/
inductive MatchTarget where
  | aliasId (identifier : String)
  | command (text : String)
  | invalidAlias (text : String)
  deriving DecidableEq

/-- One structured, lexed config line. The pest grammar config.pest is not in
the snapshot and is an external collaborator; the spec fixes this finite set
of line kinds and their typed payloads. The numeric fields of a match line are
the source position that parse_match records as the ConfigOrigin. -/
inductive ConfigLine where
  | includeLine (target : String)
  | importLine (target : String)
  | profileLine (name : String)
  | aliasLine (identifier : String) (action : String)
  | matchLine (pattern : Pattern) (target : MatchTarget) (line column : Nat)
  | invalidMetaLine (text : String)
  | invalidAliasLine (text : String)
  deriving DecidableEq

/-- The file system seen by the loader: a finite map from canonical path to
lexed content. Path canonicalisation and the tilde and environment expansion
of include targets are external; the model identifies a path with its
canonical form, and canonicalisation succeeds exactly on existing files,
matching its failure mode. Directory includes (recursion over directory
entries) are outside the model; the claims under verification involve only
file includes. -/
structure ConfigFS where
  files : List (String × List ConfigLine)
  deriving DecidableEq

/-- The canonical paths that exist. -/
def ConfigFS.paths (fs : ConfigFS) : List String := fs.files.map Prod.fst

/-- rrr.rs, RrrBuilder::is_profile_loadable: with an allow-list set, only its
members are loadable; without one, every profile is. -/
def RrrBuilder.is_profile_loadable (b : RrrBuilder) : Bool :=
  match b.only_profiles with
  | some only_profiles => only_profiles.contains b.current_profile
  | none => true

/-- rrr.rs, RrrBuilder::parse_meta_profile: create the builder of the target
profile on first reference (the or_insert) and switch the current profile.
Note that this happens whether or not the target profile is loadable. -/
def RrrBuilder.parse_meta_profile (b : RrrBuilder) (target : String) : RrrBuilder :=
  let profiles :=
    match b.profiles.lookup target with
    | some _ => b.profiles
    | none => b.profiles ++ [(target, RuleSetBuilder.new target b.case_insensitive)]
  { b with profiles := profiles, current_profile := target }

/-- Update the builder of one profile in the association list (the source
takes a mutable reference into the HashMap; keys are unique). -/
def updateProfile (profiles : List (ProfileIdentifier × RuleSetBuilder))
    (key : ProfileIdentifier) (f : RuleSetBuilder → RuleSetBuilder) :
    List (ProfileIdentifier × RuleSetBuilder) :=
  profiles.map (fun pr => if pr.1 == key then (pr.1, f pr.2) else pr)

/-- rrr.rs, RrrBuilder::parse_alias: a silent skip when the current profile is
not loadable; otherwise record the alias into the current profile builder. The
expect inside current_profile() is a panic when the current profile has no
builder (unreachable from RrrBuilder::new, which creates the default
builder). The subtype records that the visited-file set is untouched. -/
def RrrBuilder.parse_alias (b : RrrBuilder) (identifier : String) (action : String) :
    Except RrrError { b2 : RrrBuilder // b2.loaded_config_files = b.loaded_config_files } :=
  if b.is_profile_loadable then
    match b.profiles.lookup b.current_profile with
    | none => .error (.panic "Current profile should exist in the list of profiles")
    | some _ =>
      let profiles2 :=
        updateProfile b.profiles b.current_profile
          (fun rsb => rsb.insert_alias identifier action)
      .ok ⟨{ b with profiles := profiles2 }, rfl⟩
  else .ok ⟨b, rfl⟩

/-- rrr.rs, RrrBuilder::parse_match: a silent skip when the current profile is
not loadable; otherwise add the rule to the current profile builder, with an
alias reference or a literal command action (rrr.rs calls rule_with_action for
the command case; the snapshot of rule_set.rs declares rule_with_command). The
invalid-alias target never reaches this function: parse_line rejects it first,
and the identity arm below is dead code kept for totality. -/
def RrrBuilder.parse_match (b : RrrBuilder) (file : String) (pattern : Pattern)
    (target : MatchTarget) (line column : Nat) :
    Except RrrError { b2 : RrrBuilder // b2.loaded_config_files = b.loaded_config_files } :=
  if b.is_profile_loadable then
    match b.profiles.lookup b.current_profile with
    | none => .error (.panic "Current profile should exist in the list of profiles")
    | some _ =>
      let config_origin : ConfigOrigin := { file, line, column }
      let update : RuleSetBuilder → RuleSetBuilder :=
        match target with
        | .aliasId identifier => fun rsb => rsb.rule_with_alias config_origin pattern identifier
        | .command text => fun rsb => rsb.rule_with_command config_origin pattern text
        | .invalidAlias _ => id
      .ok ⟨{ b with profiles := updateProfile b.profiles b.current_profile update }, rfl⟩
  else .ok ⟨b, rfl⟩

/-- Marking a file visited: the insert into loaded_config_files. -/
def RrrBuilder.markVisited (b : RrrBuilder) (path : String) : RrrBuilder :=
  { b with loaded_config_files := path :: b.loaded_config_files }

/-- One pending call of the recursive loader: loading a whole file
(RrrBuilder::config) or the remaining lines of the file being parsed. -/
inductive LoadCall where
  | file (b : RrrBuilder) (path : String)
  | lines (b : RrrBuilder) (file : String) (ls : List ConfigLine)

/-- The loader state a call starts from. -/
def LoadCall.builder : LoadCall → RrrBuilder
  | .file b _ => b
  | .lines b _ _ => b

/-- Count of configuration files not yet visited: the termination measure of
the recursive loader. -/
def unvisitedCount (fs : ConfigFS) (b : RrrBuilder) : Nat :=
  (fs.paths.filter (fun p => decide (¬ p ∈ b.loaded_config_files))).length

/-- Secondary termination measure: remaining lines of the current file. -/
def loadRank : LoadCall → Nat
  | .file _ _ => 0
  | .lines _ _ ls => ls.length + 1

/-- The recursive configuration loader: RrrBuilder::config together with the
line loop inside it (rrr.rs). A file call canonicalises and reads the path
(failing when the file does not exist), returns the state unchanged when the
canonical path was already loaded, and otherwise marks it visited and parses
its lines in order, threading the builder through parse_line: include recurses
into the target file (parse_meta_include and parse_meta_include_rec on a plain
file target), import fails as in a build without the import feature, profile
switches are not restored when an include returns (as in the source), alias
and match lines go to their handlers, with the invalid-alias match target and
the invalid line kinds rejected as in parse_line. The subtype result records
that the visited-file set only grows; together with the measure below this
bounds the recursion: a recursive file call either returns at the visited
check or strictly shrinks the set of unvisited files. -/
def loadGo (fs : ConfigFS) :
    (c : LoadCall) →
    Except RrrError
      { b2 : RrrBuilder // c.builder.loaded_config_files ⊆ b2.loaded_config_files }
  | .file b path =>
    match hread : fs.files.lookup path with
    | none => .error (.ioError path)
    | some ls =>
      if hv : path ∈ b.loaded_config_files then
        .ok ⟨b, List.Subset.refl _⟩
      else
        match loadGo fs (.lines (b.markVisited path) path ls) with
        | .error e => .error e
        | .ok ⟨b2, h2⟩ => .ok ⟨b2, fun x hx => h2 (List.mem_cons_of_mem _ hx)⟩
  | .lines b _ [] => .ok ⟨b, List.Subset.refl _⟩
  | .lines b file (.includeLine target :: ls) =>
    match loadGo fs (.file b target) with
    | .error e => .error e
    | .ok ⟨b1, h1⟩ =>
      match loadGo fs (.lines b1 file ls) with
      | .error e => .error e
      | .ok ⟨b2, h2⟩ => .ok ⟨b2, fun x hx => h2 (h1 hx)⟩
  | .lines _ _ (.importLine _ :: _) => .error .importDisabled
  | .lines b file (.profileLine name :: ls) =>
    match loadGo fs (.lines (b.parse_meta_profile name) file ls) with
    | .error e => .error e
    | .ok ⟨b2, h2⟩ => .ok ⟨b2, fun x hx => h2 hx⟩
  | .lines b file (.aliasLine identifier action :: ls) =>
    match b.parse_alias identifier action with
    | .error e => .error e
    | .ok ⟨b1, h1⟩ =>
      match loadGo fs (.lines b1 file ls) with
      | .error e => .error e
      | .ok ⟨b2, h2⟩ => .ok ⟨b2, fun x hx => h2 (h1.symm ▸ hx)⟩
  | .lines _ _ (.matchLine _ (.invalidAlias text) _ _ :: _) =>
    .error (.invalidAliasInMatch text)
  | .lines b file (.matchLine pattern (.aliasId identifier) line column :: ls) =>
    match b.parse_match file pattern (.aliasId identifier) line column with
    | .error e => .error e
    | .ok ⟨b1, h1⟩ =>
      match loadGo fs (.lines b1 file ls) with
      | .error e => .error e
      | .ok ⟨b2, h2⟩ => .ok ⟨b2, fun x hx => h2 (h1.symm ▸ hx)⟩
  | .lines b file (.matchLine pattern (.command text) line column :: ls) =>
    match b.parse_match file pattern (.command text) line column with
    | .error e => .error e
    | .ok ⟨b1, h1⟩ =>
      match loadGo fs (.lines b1 file ls) with
      | .error e => .error e
      | .ok ⟨b2, h2⟩ => .ok ⟨b2, fun x hx => h2 (h1.symm ▸ hx)⟩
  | .lines _ _ (.invalidMetaLine text :: _) => .error (.invalidMeta text)
  | .lines _ _ (.invalidAliasLine text :: _) => .error (.invalidAliasLine text)
termination_by c => (unvisitedCount fs c.builder, loadRank c)
decreasing_by
  · -- marking a fresh existing file visited strictly shrinks the unvisited set
    apply Prod.Lex.left
    try simp only [LoadCall.builder]
    have lookup_mem : ∀ (l : List (String × List ConfigLine)) (k : String)
        (v : List ConfigLine), l.lookup k = some v → k ∈ l.map Prod.fst := by
      intro l k v
      induction l with
      | nil => intro h; exact Option.noConfusion h
      | cons a t ih =>
        intro h
        rw [List.lookup] at h
        by_cases hk : k == a.1
        · simp only [List.map_cons, List.mem_cons]
          exact Or.inl (eq_of_beq hk)
        · simp only [Bool.not_eq_true] at hk
          rw [hk] at h
          exact List.mem_cons_of_mem _ (ih h)
    have hfs : path ∈ fs.paths := lookup_mem fs.files path ls hread
    have hsubp : ∀ a : String,
        (decide (¬ a ∈ (b.markVisited path).loaded_config_files)) = true →
        (decide (¬ a ∈ b.loaded_config_files)) = true := by
      intro a ha
      simp only [RrrBuilder.markVisited, decide_eq_true_eq, List.mem_cons] at ha ⊢
      exact fun hmem => ha (Or.inr hmem)
    have hle :
        ((fs.paths.filter
            (fun p => decide (¬ p ∈ (b.markVisited path).loaded_config_files))).length ≤
          (fs.paths.filter (fun p => decide (¬ p ∈ b.loaded_config_files))).length) :=
      (List.monotone_filter_right _ hsubp).length_le
    have hpold : path ∈ fs.paths.filter (fun p => decide (¬ p ∈ b.loaded_config_files)) := by
      rw [List.mem_filter]
      exact ⟨hfs, by simpa using hv⟩
    have hpnew : path ∉
        fs.paths.filter (fun p => decide (¬ p ∈ (b.markVisited path).loaded_config_files)) := by
      rw [List.mem_filter]
      intro hand
      have hc := hand.2
      simp only [RrrBuilder.markVisited, decide_eq_true_eq] at hc
      exact hc (List.mem_cons_self _ _)
    unfold unvisitedCount
    rcases Nat.lt_or_ge
        ((fs.paths.filter
            (fun p => decide (¬ p ∈ (b.markVisited path).loaded_config_files))).length)
        ((fs.paths.filter (fun p => decide (¬ p ∈ b.loaded_config_files))).length) with h | h
    · exact h
    · exfalso
      have heq :
          ((fs.paths.filter
              (fun p => decide (¬ p ∈ (b.markVisited path).loaded_config_files))).length =
            (fs.paths.filter (fun p => decide (¬ p ∈ b.loaded_config_files))).length) :=
        le_antisymm hle h
      have hsubl := List.monotone_filter_right fs.paths hsubp
      rw [hsubl.eq_of_length heq] at hpnew
      exact hpnew hpold
  · -- include: the file sub-call keeps the builder and has the least rank
    apply Prod.Lex.right
    simp [loadRank]
  · -- include: continuing after the sub-call, whose visited set only grew
    try simp only [LoadCall.builder]
    have hle : unvisitedCount fs b1 ≤ unvisitedCount fs b := by
      apply List.Sublist.length_le
      apply List.monotone_filter_right
      intro a ha
      simp only [decide_eq_true_eq] at *
      exact fun hmem => ha (h1 hmem)
    rcases Nat.lt_or_ge (unvisitedCount fs b1) (unvisitedCount fs b) with h | h
    · exact Prod.Lex.left _ _ h
    · have heq : unvisitedCount fs b1 = unvisitedCount fs b := le_antisymm hle h
      rw [heq]
      apply Prod.Lex.right
      simp [loadRank]
  · -- profile switch: the visited set is untouched
    apply Prod.Lex.right
    simp [loadRank]
  · -- alias line: the visited set is untouched
    try simp only [LoadCall.builder]
    have heq : unvisitedCount fs b1 = unvisitedCount fs b := by
      unfold unvisitedCount
      rw [h1]
    rw [heq]
    apply Prod.Lex.right
    simp [loadRank]
  · -- match line with alias target: the visited set is untouched
    try simp only [LoadCall.builder]
    have heq : unvisitedCount fs b1 = unvisitedCount fs b := by
      unfold unvisitedCount
      rw [h1]
    rw [heq]
    apply Prod.Lex.right
    simp [loadRank]
  · -- match line with command target: the visited set is untouched
    try simp only [LoadCall.builder]
    have heq : unvisitedCount fs b1 = unvisitedCount fs b := by
      unfold unvisitedCount
      rw [h1]
    rw [heq]
    apply Prod.Lex.right
    simp [loadRank]

/-- rrr.rs, RrrBuilder::config: load one configuration file, dropping the
bookkeeping subtype. -/
def RrrBuilder.config (fs : ConfigFS) (b : RrrBuilder) (path : String) :
    Except RrrError RrrBuilder :=
  (loadGo fs (.file b path)).map Subtype.val

/-- The line loop of RrrBuilder::config as its own entry point, so that the
behaviour of partial line sequences can be stated. -/
def RrrBuilder.loadLines (fs : ConfigFS) (b : RrrBuilder) (file : String)
    (ls : List ConfigLine) : Except RrrError RrrBuilder :=
  (loadGo fs (.lines b file ls)).map Subtype.val

/-- Worker for RrrBuilder::build: build every profile builder into a rule set,
aborting at the first failure. -/
def buildProfiles (E : Engines) :
    List (ProfileIdentifier × RuleSetBuilder) →
    Except RrrError (List (ProfileIdentifier × RuleSet))
  | [] => .ok []
  | (p, rsb) :: rest => do
    let rule_set ← rsb.build E
    let rest2 ← buildProfiles E rest
    .ok ((p, rule_set) :: rest2)

/-- rrr.rs, RrrBuilder::build (HashMap iteration order is arbitrary in the
source; the association-list order stands in for it). -/
def RrrBuilder.build (E : Engines) (b : RrrBuilder) : Except RrrError Rrr := do
  let profiles ← buildProfiles E b.profiles
  .ok { profiles }

/-- The profile-filter invariant: when an allow-list is set, every profile
builder outside the allow-list holds no aliases and no rules. -/
def RrrBuilder.filterInv (b : RrrBuilder) : Bool :=
  match b.only_profiles with
  | none => true
  | some only_profiles =>
    b.profiles.all (fun pr =>
      only_profiles.contains pr.1 ||
        (pr.2.alias_table.isEmpty && pr.2.regex_rules.isEmpty && pr.2.glob_rules.isEmpty))

/-! The dispatcher (main.rs). -/

/-- The dispatcher arguments relevant to the core (main.rs, Args). -/
structure Args where
  query : Bool
  dry_run : Bool
  fallback : Bool
  fork : Bool
  profile : String
  deriving DecidableEq

/-- main.rs, ExecutionResult: whether execution happened, and its result. -/
inductive ExecutionResult where
  | no_execution
  | with_execution (result : Except RrrError Unit)
  deriving DecidableEq

/-- main.rs, process_rule: prepare the matched rule; then, outside query and
dry-run modes, execute it, choosing wait-and-check under fallback, else fork
or exec according to the fork flag. Preparation failure propagates as an
error. Query mode only prints the prepared command and dry-run only logs;
neither executes. The prepared rule is returned alongside the result (the
source mutates the shared rule in place through its OnceCell). -/
def process_rule (E : Engines) (os : OsBoundary) (args : Args) (r : Rule) (input : String) :
    Except RrrError (ExecutionResult × Rule) := do
  let r2 ← r.prepare E input
  let _executed_action ← r2.get_executed_action
  if args.query then
    .ok (.no_execution, r2)
  else if !args.dry_run then
    let execution_type :=
      if args.fallback then ExecutionType.WaitSuccessSignalOk
      else if args.fork then ExecutionType.Fork
      else ExecutionType.Exec
    .ok (.with_execution (r2.exec os execution_type), r2)
  else
    .ok (.no_execution, r2)

/-- The loop of process_input_with_fallback (main.rs): walk the match list in
order; the first successful execution stops the walk; an execution failure is
logged and the walk continues; a rule that did not execute (query or dry-run)
also continues. When the list is exhausted the match-found flag decides
whether the no-match warning is emitted, and the walk returns success. The
returned string list is the log of info and warn messages the loop emits. -/
def fallbackWalk (E : Engines) (os : OsBoundary) (args : Args) (input : String) :
    List Rule → Bool → Except RrrError (List String)
  | [], match_found =>
    if match_found then .ok [] else .ok ["no match for " ++ input]
  | r :: rest, _ => do
    let result ← process_rule E os args r input
    match result.1 with
    | .with_execution (.ok _) => .ok []
    | .with_execution (.error e) =>
      (fun log => ("execution failed (continuing with next match): " ++ e.message) :: log)
        <$> fallbackWalk E os args input rest true
    | .no_execution => fallbackWalk E os args input rest true

/-- main.rs, process_input_with_fallback: look up the profile, take the full
ordered match list and walk it. The walk itself always returns success; only
the profile lookup and rule-preparation failures propagate as errors. -/
def process_input_with_fallback (E : Engines) (os : OsBoundary) (args : Args) (rrr : Rrr)
    (input : String) : Except RrrError (List String) := do
  let rule_set ← rrr.profile args.profile
  fallbackWalk E os args input (rule_set.matches E input) false

/-- main.rs, process_input_without_fallback: single match, prepared and
executed; an execution failure is terminal for the input; no match is a
warning. -/
def process_input_without_fallback (E : Engines) (os : OsBoundary) (args : Args) (rrr : Rrr)
    (input : String) : Except RrrError (List String) := do
  let rule_set ← rrr.profile args.profile
  match rule_set.match_one E input with
  | some r => do
    let result ← process_rule E os args r input
    match result.1 with
    | .with_execution (.error e) => .error e
    | _ => .ok []
  | none => .ok ["no match for " ++ input]

/-- main.rs, process_input. -/
def process_input (E : Engines) (os : OsBoundary) (args : Args) (rrr : Rrr)
    (input : String) : Except RrrError (List String) :=
  if args.fallback then process_input_with_fallback E os args rrr input
  else process_input_without_fallback E os args rrr input

/-! Concrete instantiations of the external collaborators and small concrete
rule sets, used to evaluate the model on closed inputs. -/

/-- A concrete engine: regex matching is equality of pattern text and input,
glob matching accepts the catch-all star pattern or an exact match, a
matching regex captures only group 0, every pattern compiles, and quoting
leaves the string unchanged (as shlex does on strings of ordinary
characters). -/
def plainEngines : Engines :=
  { rxMatch := fun _ pattern input => pattern == input
    glMatch := fun _ pattern input => pattern == "*" || pattern == input
    rxCaps := fun _ pattern input => if pattern == input then some [some input] else none
    rxCompileOk := fun _ _ => true
    rxSetCompileOk := fun _ _ => true
    glCompileOk := fun _ _ => true
    quote := fun s => s }

/-- The engine behaviour on the capture example of the spec: the regex of two
digit groups matches the input 12-34 with group captures 12 and 34 (this is
what the regex crate returns for that pattern and input). -/
def exampleCapsEngines : Engines :=
  { plainEngines with
    rxMatch := fun _ _ _ => true
    rxCaps := fun _ _ _ => some [some "12-34", some "12", some "34"] }

/-- An OS boundary on which every execution fails (a command exiting with a
non-zero status under wait-and-check). -/
def failingOs : OsBoundary :=
  { osRun := fun _ _ => .error (.execFailed "exit status 1") }

/-- Dispatcher arguments: fallback mode, actually executing. -/
def fallbackArgs : Args :=
  { query := false, dry_run := false, fallback := true, fork := false, profile := "default" }

/-- A fixed provenance record for concrete rules. -/
def cexOrigin : ConfigOrigin := { file := "rrr.conf", line := 1, column := 1 }

/-- A builder with one catch-all glob rule. -/
def cexBuilder : RuleSetBuilder :=
  (RuleSetBuilder.new "default" true).rule_with_command cexOrigin (.Glob "*") "run"

/-- The resolved catch-all rule as build produces it. -/
def cexRule : Rule :=
  { pattern := .Glob "*", action := .Command "run", resolved := some "run",
    execution := none, case_insensitive := true, rule_origin := .Explicit,
    config_origin := cexOrigin }

/-- The rule set that building cexBuilder yields. -/
def cexRuleSet : RuleSet :=
  { regex_set := [], glob_set := ["*"],
    builder := { profile := "default", case_insensitive := true, alias_table := [],
                 regex_rules := [], glob_rules := [cexRule] } }

/-- A dispatcher over the single default profile. -/
def cexRrr : Rrr := { profiles := [("default", cexRuleSet)] }

/-- The catch-all rule after it has been prepared once. -/
def c4PreparedRule : Rule := { cexRule with execution := some "run file.txt" }

/-- The unresolvable rule held by c7Builder. -/
def c7Rule : Rule :=
  { pattern := .Glob "*.pdf", action := .Alias "viewer", resolved := none,
    execution := none, case_insensitive := false, rule_origin := .Explicit,
    config_origin := cexOrigin }

/-- One regex rule and one glob rule, both of which match the input x under
plainEngines, for the kind-priority scenario. -/
def prioRegexRule : Rule :=
  { pattern := .Regex "x", action := .Command "rcmd", resolved := some "rcmd",
    execution := none, case_insensitive := false, rule_origin := .Explicit,
    config_origin := cexOrigin }

def prioGlobRule : Rule :=
  { pattern := .Glob "*", action := .Command "gcmd", resolved := some "gcmd",
    execution := none, case_insensitive := false, rule_origin := .Explicit,
    config_origin := cexOrigin }

def prioBuilder : RuleSetBuilder :=
  ((RuleSetBuilder.new "default" false).rule_with_command cexOrigin (.Regex "x") "rcmd"
    ).rule_with_command cexOrigin (.Glob "*") "gcmd"

def prioRuleSet : RuleSet :=
  { regex_set := ["x"], glob_set := ["*"],
    builder := { profile := "default", case_insensitive := false, alias_table := [],
                 regex_rules := [prioRegexRule], glob_rules := [prioGlobRule] } }

/-- Two regex rules with the same pattern, declared first and second, for the
last-declared-wins scenario. -/
def c3FirstRule : Rule :=
  { pattern := .Regex "x", action := .Command "first", resolved := some "first",
    execution := none, case_insensitive := false, rule_origin := .Explicit,
    config_origin := cexOrigin }

def c3SecondRule : Rule :=
  { pattern := .Regex "x", action := .Command "second", resolved := some "second",
    execution := none, case_insensitive := false, rule_origin := .Explicit,
    config_origin := cexOrigin }

/-- Two glob rules with the same catch-all pattern, declared first and
second. -/
def c3GlobFirstRule : Rule :=
  { pattern := .Glob "*", action := .Command "gfirst", resolved := some "gfirst",
    execution := none, case_insensitive := false, rule_origin := .Explicit,
    config_origin := cexOrigin }

def c3GlobSecondRule : Rule :=
  { pattern := .Glob "*", action := .Command "gsecond", resolved := some "gsecond",
    execution := none, case_insensitive := false, rule_origin := .Explicit,
    config_origin := cexOrigin }

def c3Builder : RuleSetBuilder :=
  ((((RuleSetBuilder.new "default" false).rule_with_command cexOrigin (.Regex "x") "first"
    ).rule_with_command cexOrigin (.Regex "x") "second"
    ).rule_with_command cexOrigin (.Glob "*") "gfirst"
    ).rule_with_command cexOrigin (.Glob "*") "gsecond"

def c3RuleSet : RuleSet :=
  { regex_set := ["x", "x"], glob_set := ["*", "*"],
    builder := { profile := "default", case_insensitive := false, alias_table := [],
                 regex_rules := [c3SecondRule, c3FirstRule],
                 glob_rules := [c3GlobSecondRule, c3GlobFirstRule] } }

/-- A builder whose only rule references an alias that was never declared. -/
def c7Builder : RuleSetBuilder :=
  (RuleSetBuilder.new "work" false).rule_with_alias cexOrigin (.Glob "*.pdf") "viewer"

/-- The regex rule of the capture example in the spec. -/
def c6Rule : Rule :=
  { pattern := .Regex "(\\d+)-(\\d+)", action := .Command "run %1 %2 %s",
    resolved := some "run %1 %2 %s", execution := none, case_insensitive := false,
    rule_origin := .Explicit, config_origin := cexOrigin }

/-- A configuration file that includes itself after declaring one rule. -/
def selfIncludeFS : ConfigFS :=
  { files := [("rrr.conf",
      [ConfigLine.matchLine (.Glob "*.txt") (.command "run") 1 1,
       ConfigLine.includeLine "rrr.conf"])] }

/-- Fresh loader state without an allow-list. -/
def c8Builder : RrrBuilder := RrrBuilder.new true none

/-- Loader state that has already visited the self-including file. -/
def c8BuilderVisited : RrrBuilder := c8Builder.markVisited "rrr.conf"

/-- A one-file file system with no lines, and a loader state with an empty
allow-list, for exercising the profile filter. -/
def c9FS : ConfigFS := { files := [("a", [])] }

def c9Builder : RrrBuilder := RrrBuilder.new true (some [])

def c9BuilderLoaded : RrrBuilder := c9Builder.markVisited "a"

/-! Theorems. Supporting lemmas first, then one theorem per claim, each with
its witness or counterexample where required. -/

theorem replaceSubAux_nil (pat rep : List Char) (n : Nat) :
    replaceSubAux pat rep n [] = [] := by
  cases n <;> rfl

theorem replaceSubAux_congr (pat rep : List Char) :
    ∀ (n : Nat) (s : List Char) (m : Nat), s.length ≤ n → s.length ≤ m →
      replaceSubAux pat rep n s = replaceSubAux pat rep m s := by
  intro n
  induction n with
  | zero =>
    intro s m hn _
    have hs : s = [] := List.length_eq_zero.mp (Nat.le_zero.mp hn)
    subst hs
    rw [replaceSubAux_nil, replaceSubAux_nil]
  | succ n ih =>
    intro s m hn hm
    cases s with
    | nil => rw [replaceSubAux_nil, replaceSubAux_nil]
    | cons c rest =>
      cases m with
      | zero => simp at hm
      | succ m2 =>
        simp only [replaceSubAux]
        by_cases hp : pat ≠ [] ∧ pat.isPrefixOf (c :: rest)
        · rw [if_pos hp, if_pos hp]
          congr 1
          have hlenpat : 1 ≤ pat.length := by
            cases hpat : pat with
            | nil => exact absurd hpat hp.1
            | cons a as => simp
          simp only [List.length_cons] at hn hm
          apply ih
          · simp only [List.length_drop, List.length_cons]
            omega
          · simp only [List.length_drop, List.length_cons]
            omega
        · rw [if_neg hp, if_neg hp]
          congr 1
          simp only [List.length_cons] at hn hm
          apply ih <;> omega

theorem replaceSub_cons (pat rep : List Char) (c : Char) (rest : List Char) :
    replaceSub pat rep (c :: rest) =
      if pat ≠ [] ∧ pat.isPrefixOf (c :: rest) then
        rep ++ replaceSub pat rep ((c :: rest).drop pat.length)
      else c :: replaceSub pat rep rest := by
  unfold replaceSub
  simp only [List.length_cons, replaceSubAux]
  by_cases hp : pat ≠ [] ∧ pat.isPrefixOf (c :: rest)
  · rw [if_pos hp, if_pos hp]
    congr 1
    have hlenpat : 1 ≤ pat.length := by
      cases hpat : pat with
      | nil => exact absurd hpat hp.1
      | cons a as => simp
    apply replaceSubAux_congr
    · simp only [List.length_drop, List.length_cons]
      omega
    · exact Nat.le_refl _
  · rw [if_neg hp, if_neg hp]

theorem replaceSub_no_tag_append (rep : List Char) :
    ∀ t : List Char, containsSub ['%', 's'] t = false →
      replaceSub ['%', 's'] rep (t ++ [' ', '%', 's']) = t ++ ' ' :: rep := by
  intro t
  induction t with
  | nil =>
    intro _
    show replaceSub ['%', 's'] rep [' ', '%', 's'] = ' ' :: rep
    rw [replaceSub_cons, if_neg (by decide), replaceSub_cons, if_pos (by decide)]
    simp [replaceSub, replaceSubAux_nil]
  | cons c t ih =>
    intro h
    rw [containsSub] at h
    have hsplit : List.isPrefixOf ['%', 's'] (c :: t) = false ∧
        containsSub ['%', 's'] t = false := by
      constructor
      · cases hb : List.isPrefixOf ['%', 's'] (c :: t) with
        | false => rfl
        | true => rw [hb] at h; simp at h
      · cases hb : containsSub ['%', 's'] t with
        | false => rfl
        | true => rw [hb] at h; simp at h
    rw [List.cons_append, replaceSub_cons]
    by_cases hp : (['%', 's'] : List Char) ≠ [] ∧
        List.isPrefixOf ['%', 's'] (c :: (t ++ [' ', '%', 's']))
    · exfalso
      have hpre := hp.2
      cases t with
      | nil => simp [List.isPrefixOf] at hpre
      | cons t0 t2 =>
        have hcontr : List.isPrefixOf ['%', 's'] (c :: t0 :: t2) = true := by
          simp only [List.isPrefixOf, List.cons_append] at hpre ⊢
          exact hpre
        rw [hsplit.1] at hcontr
        exact Bool.noConfusion hcontr
    · rw [if_neg hp, ih hsplit.2]
      simp

theorem string_ext_data {s t : String} (h : s.data = t.data) : s = t := by
  cases s
  cases t
  exact congrArg String.mk h

/-- Claim C5: for every resolved rule and matching input, if after capture
substitution the command template contains no occurrence of %s, the preparer
appends a space and %s to the end before substituting, so the prepared command
is the template followed by a space and the shell-quoted input — in particular
it ends with the shell-quoted input; if %s is present, every occurrence is
replaced by the shell-quoted original input (strReplace is the left-to-right
replacement of every occurrence, as in the Rust str replace). -/
theorem c5_missing_tag_appends_quoted_input (E : Engines) (t input : String) :
    (strContains t "%s" = false →
      Rule.substitute_file E t input = t ++ " " ++ E.quote input ∧
      ∃ pre : String, Rule.substitute_file E t input = pre ++ E.quote input)
    ∧ (strContains t "%s" = true →
      Rule.substitute_file E t input = strReplace t "%s" (E.quote input)) := by
  constructor
  · intro h
    have hmain : Rule.substitute_file E t input = t ++ " " ++ E.quote input := by
      unfold Rule.substitute_file
      rw [if_neg (by rw [h]; exact Bool.false_ne_true)]
      apply string_ext_data
      show replaceSub "%s".data (E.quote input).data (t ++ " %s").data =
        (t ++ " " ++ E.quote input).data
      rw [String.data_append, String.data_append, String.data_append]
      have htag : (" %s" : String).data = [' ', '%', 's'] := rfl
      have hpat : ("%s" : String).data = ['%', 's'] := rfl
      rw [htag, hpat]
      rw [replaceSub_no_tag_append _ t.data h]
      have hsp : (" " : String).data = [' '] := rfl
      rw [hsp]
      simp
    exact ⟨hmain, ⟨t ++ " ", by rw [hmain, String.append_assoc]⟩⟩
  · intro h
    unfold Rule.substitute_file
    rw [if_pos h]

/-- Witness for C5 on the example of the spec: action run with input file.txt
prepares to run file.txt (quoting leaves plain words unchanged). -/
theorem c5_missing_tag_appends_quoted_input_witness :
    strContains "run" "%s" = false ∧
    Rule.substitute_file plainEngines "run" "file.txt" = "run file.txt" := by
  refine ⟨by decide, ?_⟩
  have h := (c5_missing_tag_appends_quoted_input plainEngines "run" "file.txt").1 (by decide)
  rw [h.1]
  rfl

theorem firstMatchIdx_map (p : String → Bool) (f : Rule → String) :
    ∀ rules : List Rule,
      (match firstMatchIdx p (rules.map f) with
       | some i => rules.get? i
       | none => none) = rules.find? (fun r => p (f r)) := by
  intro rules
  induction rules with
  | nil => rfl
  | cons r rest ih =>
    simp only [List.map_cons, firstMatchIdx, List.find?_cons]
    cases hp : p (f r) with
    | true => simp
    | false =>
      simp only [Bool.false_eq_true, if_false]
      cases hrec : firstMatchIdx p (rest.map f) with
      | none =>
        rw [hrec] at ih
        simpa using ih
      | some i =>
        rw [hrec] at ih
        simpa using ih

theorem rule_resolve_parts (b : RuleSetBuilder) (r r2 : Rule)
    (h : Rule.resolve b r = .ok r2) :
    ∃ cmd, b.resolveAction r.action = .ok cmd ∧ r.resolved = none ∧
      r2 = { r with resolved := some cmd } := by
  unfold Rule.resolve at h
  cases hact : b.resolveAction r.action with
  | error e => rw [hact] at h; exact Except.noConfusion h
  | ok cmd =>
    rw [hact] at h
    cases hres : r.resolved with
    | some v =>
      rw [hres] at h
      exact Except.noConfusion h
    | none =>
      rw [hres] at h
      refine ⟨cmd, rfl, rfl, ?_⟩
      have := Except.ok.inj h
      exact this.symm

theorem resolve_map_pattern (b : RuleSetBuilder) :
    ∀ rules rr : List Rule, b.resolve rules = .ok rr →
      rr.map (fun r => r.pattern) = rules.map (fun r => r.pattern) := by
  intro rules
  induction rules with
  | nil =>
    intro rr h
    unfold RuleSetBuilder.resolve at h
    cases Except.ok.inj h
    rfl
  | cons r rest ih =>
    intro rr h
    unfold RuleSetBuilder.resolve at h
    cases hr : Rule.resolve b r with
    | error e => rw [hr] at h; exact Except.noConfusion h
    | ok r2 =>
      rw [hr] at h
      cases hrest : b.resolve rest with
      | error e =>
        rw [hrest] at h
        exact Except.noConfusion h
      | ok rest2 =>
        rw [hrest] at h
        cases Except.ok.inj h
        obtain ⟨cmd, _, _, hr2⟩ := rule_resolve_parts b r r2 hr
        simp only [List.map_cons]
        rw [ih rest2 hrest, hr2]

theorem build_ok_parts (E : Engines) (b : RuleSetBuilder) (rs : RuleSet)
    (h : b.build E = .ok rs) :
    ∃ rr gr, b.resolve b.regex_rules = .ok rr ∧ b.resolve b.glob_rules = .ok gr ∧
      rs.builder.regex_rules = rr.reverse ∧
      rs.builder.glob_rules = gr.reverse ∧
      rs.regex_set = rr.reverse.map Rule.pattern_as_str ∧
      rs.glob_set = gr.reverse.map Rule.pattern_as_str ∧
      rs.builder.case_insensitive = b.case_insensitive ∧
      rs.builder.profile = b.profile ∧
      rs.builder.alias_table = b.alias_table := by
  unfold RuleSetBuilder.build at h
  cases hr : b.resolve b.regex_rules with
  | error e =>
    rw [hr] at h
    exact Except.noConfusion h
  | ok rr =>
    rw [hr] at h
    cases hg : b.resolve b.glob_rules with
    | error e =>
      rw [hg] at h
      exact Except.noConfusion h
    | ok gr =>
      rw [hg] at h
      simp only [bind, Except.bind] at h
      by_cases hcomp : E.rxSetCompileOk b.case_insensitive (rr.reverse.map Rule.pattern_as_str)
      · rw [if_pos hcomp] at h
        cases hfind : gr.reverse.find?
            (fun r => !(E.glCompileOk b.case_insensitive r.pattern_as_str)) with
        | some rbad =>
          rw [hfind] at h
          exact Except.noConfusion h
        | none =>
          rw [hfind] at h
          have hrs := (Except.ok.inj h).symm
          refine ⟨rr, gr, rfl, rfl, ?_, ?_, ?_, ?_, ?_, ?_, ?_⟩ <;> rw [hrs]
      · rw [if_neg hcomp] at h
        exact Except.noConfusion h

theorem find?_reverse_last {α : Type} (p : α → Bool) :
    ∀ l : List α, (∃ x ∈ l, p x = true) →
      ∃ k, ∃ hk : k < l.length, l.reverse.find? p = some (l.get ⟨k, hk⟩) ∧
        p (l.get ⟨k, hk⟩) = true ∧
        ∀ m, ∀ hm : m < l.length, k < m → p (l.get ⟨m, hm⟩) = false := by
  intro l
  induction l with
  | nil =>
    rintro ⟨x, hx, _⟩
    cases hx
  | cons a t ih =>
    rintro ⟨x, hx, hpx⟩
    by_cases hmt : ∃ y ∈ t, p y = true
    · obtain ⟨k, hk, hfind, hpk, hmax⟩ := ih hmt
      refine ⟨k + 1, by simpa using Nat.succ_lt_succ hk, ?_, ?_, ?_⟩
      · rw [List.reverse_cons, List.find?_append, hfind]
        rfl
      · simpa using hpk
      · intro m hm hkm
        cases m with
        | zero => omega
        | succ m2 =>
          have := hmax m2 (by simpa using hm) (by omega)
          simpa using this
    · push_neg at hmt
      have hfalse : ∀ y ∈ t, p y = false := by
        intro y hy
        simpa using hmt y hy
      have hxa : x = a := by
        rcases List.mem_cons.mp hx with h | h
        · exact h
        · exact absurd hpx (by simp [hfalse x h])
      subst hxa
      refine ⟨0, by simp, ?_, by simpa using hpx, ?_⟩
      · rw [List.reverse_cons, List.find?_append]
        have hnone : t.reverse.find? p = none := by
          rw [List.find?_eq_none]
          intro y hy
          simp [hfalse y (List.mem_reverse.mp hy)]
        rw [hnone]
        simp [List.find?_cons, hpx]
      · intro m hm h0m
        cases m with
        | zero => omega
        | succ m2 =>
          have hm2 : m2 < t.length := by simpa using hm
          have := hfalse (t.get ⟨m2, hm2⟩) (t.get_mem m2 hm2)
          simpa using this

theorem match_queries_eq_find (E : Engines) (b : RuleSetBuilder) (rs : RuleSet)
    (input : String) (h : b.build E = .ok rs) :
    rs.match_regex E input =
      rs.builder.regex_rules.find?
        (fun r => E.rxMatch rs.builder.case_insensitive r.pattern_as_str input) ∧
    rs.match_glob E input =
      rs.builder.glob_rules.find?
        (fun r => E.glMatch rs.builder.case_insensitive r.pattern_as_str input) := by
  obtain ⟨rr, gr, _, _, hrr, hgr, hrset, hgset, _, _, _⟩ := build_ok_parts E b rs h
  constructor
  · unfold RuleSet.match_regex
    rw [hrset, hrr]
    exact firstMatchIdx_map _ _ _
  · unfold RuleSet.match_glob
    rw [hgset, hgr]
    exact firstMatchIdx_map _ _ _

theorem find?_some_of_exists {α : Type} (p : α → Bool) (l : List α)
    (hm : ∃ x ∈ l, p x = true) : ∃ r, l.find? p = some r ∧ r ∈ l ∧ p r = true := by
  cases hf : l.find? p with
  | none =>
    exfalso
    obtain ⟨x, hx, hpx⟩ := hm
    have := List.find?_eq_none.mp hf x hx
    exact this hpx
  | some r =>
    exact ⟨r, rfl, List.mem_of_find?_eq_some hf, List.find?_some hf⟩

theorem pattern_kind_transfer (b : RuleSetBuilder) (decl resolved : List Rule) (r : Rule)
    (hres : b.resolve decl = .ok resolved) (hmem : r ∈ resolved.reverse)
    (hkind : ∀ r2 ∈ decl, r2.pattern.isRegexPat = true) : r.pattern.isRegexPat = true := by
  have hmem2 : r ∈ resolved := List.mem_reverse.mp hmem
  have hmap := resolve_map_pattern b decl resolved hres
  have hpatmem : r.pattern ∈ resolved.map (fun r => r.pattern) :=
    List.mem_map_of_mem _ hmem2
  rw [hmap] at hpatmem
  obtain ⟨r2, hr2, hpat⟩ := List.mem_map.mp hpatmem
  rw [← hpat]
  exact hkind r2 hr2

theorem pattern_kind_transfer_glob (b : RuleSetBuilder) (decl resolved : List Rule) (r : Rule)
    (hres : b.resolve decl = .ok resolved) (hmem : r ∈ resolved.reverse)
    (hkind : ∀ r2 ∈ decl, r2.pattern.isRegexPat = false) : r.pattern.isRegexPat = false := by
  have hmem2 : r ∈ resolved := List.mem_reverse.mp hmem
  have hmap := resolve_map_pattern b decl resolved hres
  have hpatmem : r.pattern ∈ resolved.map (fun r => r.pattern) :=
    List.mem_map_of_mem _ hmem2
  rw [hmap] at hpatmem
  obtain ⟨r2, hr2, hpat⟩ := List.mem_map.mp hpatmem
  rw [← hpat]
  exact hkind r2 hr2

/-- Claim C2: for every compiled rule set and every input, the single-match
query returns a rule from the regex index whenever some rule of the regex
index matches the input; a rule from the glob index is returned only when no
regex rule matches; nothing is returned when neither kind matches. When the
builder sequences are kind-homogeneous, as the rule-adding API of
RuleSetBuilder guarantees, the returned rule has the corresponding pattern
kind. -/
theorem c2_regex_priority_over_glob (E : Engines) (b : RuleSetBuilder) (rs : RuleSet)
    (input : String) (hb : b.build E = .ok rs) :
    ((∃ r ∈ rs.builder.regex_rules,
        E.rxMatch rs.builder.case_insensitive r.pattern_as_str input = true) →
      ∃ r, rs.match_one E input = some r ∧ r ∈ rs.builder.regex_rules ∧
        ((∀ r2 ∈ b.regex_rules, r2.pattern.isRegexPat = true) → r.pattern.isRegexPat = true))
    ∧ ((∀ r ∈ rs.builder.regex_rules,
          E.rxMatch rs.builder.case_insensitive r.pattern_as_str input = false) →
        (∃ r ∈ rs.builder.glob_rules,
          E.glMatch rs.builder.case_insensitive r.pattern_as_str input = true) →
      ∃ r, rs.match_one E input = some r ∧ r ∈ rs.builder.glob_rules ∧
        ((∀ r2 ∈ b.glob_rules, r2.pattern.isRegexPat = false) → r.pattern.isRegexPat = false))
    ∧ ((∀ r ∈ rs.builder.regex_rules,
          E.rxMatch rs.builder.case_insensitive r.pattern_as_str input = false) →
        (∀ r ∈ rs.builder.glob_rules,
          E.glMatch rs.builder.case_insensitive r.pattern_as_str input = false) →
      rs.match_one E input = none) := by
  obtain ⟨hmr, hmg⟩ := match_queries_eq_find E b rs input hb
  obtain ⟨rr, gr, hresr, hresg, hrr, hgr, _, _, _, _, _⟩ := build_ok_parts E b rs hb
  refine ⟨?_, ?_, ?_⟩
  · intro hm
    obtain ⟨r, hf, hrmem, _⟩ := find?_some_of_exists _ _ hm
    refine ⟨r, ?_, hrmem, ?_⟩
    · unfold RuleSet.match_one
      rw [hmr, hf]
    · intro hkind
      exact pattern_kind_transfer b b.regex_rules rr r hresr (hrr ▸ hrmem) hkind
  · intro hnone hm
    obtain ⟨r, hf, hrmem, _⟩ := find?_some_of_exists _ _ hm
    have hfnone : rs.builder.regex_rules.find?
        (fun r => E.rxMatch rs.builder.case_insensitive r.pattern_as_str input) = none := by
      rw [List.find?_eq_none]
      intro x hx
      simp [hnone x hx]
    refine ⟨r, ?_, hrmem, ?_⟩
    · unfold RuleSet.match_one
      rw [hmr, hfnone, hmg, hf]
    · intro hkind
      exact pattern_kind_transfer_glob b b.glob_rules gr r hresg (hgr ▸ hrmem) hkind
  · intro hnr hng
    have hfr : rs.builder.regex_rules.find?
        (fun r => E.rxMatch rs.builder.case_insensitive r.pattern_as_str input) = none := by
      rw [List.find?_eq_none]
      intro x hx
      simp [hnr x hx]
    have hfg : rs.builder.glob_rules.find?
        (fun r => E.glMatch rs.builder.case_insensitive r.pattern_as_str input) = none := by
      rw [List.find?_eq_none]
      intro x hx
      simp [hng x hx]
    unfold RuleSet.match_one
    rw [hmr, hfr, hmg, hfg]

/-- Witness for C2: a regex rule and a glob rule both match the input x, and
the single-match query returns the regex rule. -/
theorem c2_regex_priority_over_glob_witness :
    prioBuilder.build plainEngines = .ok prioRuleSet ∧
    (∃ r ∈ prioRuleSet.builder.regex_rules,
      plainEngines.rxMatch prioRuleSet.builder.case_insensitive r.pattern_as_str "x" = true) ∧
    (∃ r ∈ prioRuleSet.builder.glob_rules,
      plainEngines.glMatch prioRuleSet.builder.case_insensitive r.pattern_as_str "x" = true) ∧
    ∃ r, prioRuleSet.match_one plainEngines "x" = some r ∧
      r ∈ prioRuleSet.builder.regex_rules ∧
      ((∀ r2 ∈ prioBuilder.regex_rules, r2.pattern.isRegexPat = true) →
        r.pattern.isRegexPat = true) := by
  refine ⟨rfl, by decide, by decide, ?_⟩
  exact (c2_regex_priority_over_glob plainEngines prioBuilder prioRuleSet "x" rfl).1 (by decide)

/-- Claim C3: build reverses each per-kind sequence before compiling (the
pattern sequences of the stored reversed lists, read backwards, are exactly
the declared ones, element by element), so the first structural match of the
compiled set is the most recently declared matching rule: whenever some rule
of a kind matches, the single-kind query returns the matching rule at the
greatest declaration position, and every rule declared later than it does not
match — in particular, of two same-kind rules that both match, the one
declared later is selected. Positions below are indices into the declaration
order, recovered as the reverse of the stored priority order. -/
theorem c3_build_reverses_last_declared_wins (E : Engines) (b : RuleSetBuilder)
    (rs : RuleSet) (input : String) (hb : b.build E = .ok rs) :
    (rs.builder.regex_rules.reverse.map (fun r => r.pattern) =
        b.regex_rules.map (fun r => r.pattern) ∧
      rs.builder.glob_rules.reverse.map (fun r => r.pattern) =
        b.glob_rules.map (fun r => r.pattern))
    ∧ ((∃ r ∈ rs.builder.regex_rules.reverse,
          E.rxMatch rs.builder.case_insensitive r.pattern_as_str input = true) →
        ∃ k, ∃ hk : k < rs.builder.regex_rules.reverse.length,
          rs.match_regex E input = some (rs.builder.regex_rules.reverse.get ⟨k, hk⟩) ∧
          E.rxMatch rs.builder.case_insensitive
            (rs.builder.regex_rules.reverse.get ⟨k, hk⟩).pattern_as_str input = true ∧
          ∀ m, ∀ hm : m < rs.builder.regex_rules.reverse.length, k < m →
            E.rxMatch rs.builder.case_insensitive
              (rs.builder.regex_rules.reverse.get ⟨m, hm⟩).pattern_as_str input = false)
    ∧ ((∃ r ∈ rs.builder.glob_rules.reverse,
          E.glMatch rs.builder.case_insensitive r.pattern_as_str input = true) →
        ∃ k, ∃ hk : k < rs.builder.glob_rules.reverse.length,
          rs.match_glob E input = some (rs.builder.glob_rules.reverse.get ⟨k, hk⟩) ∧
          E.glMatch rs.builder.case_insensitive
            (rs.builder.glob_rules.reverse.get ⟨k, hk⟩).pattern_as_str input = true ∧
          ∀ m, ∀ hm : m < rs.builder.glob_rules.reverse.length, k < m →
            E.glMatch rs.builder.case_insensitive
              (rs.builder.glob_rules.reverse.get ⟨m, hm⟩).pattern_as_str input = false) := by
  obtain ⟨hmr, hmg⟩ := match_queries_eq_find E b rs input hb
  obtain ⟨rr, gr, hresr, hresg, hrr, hgr, _, _, _, _, _⟩ := build_ok_parts E b rs hb
  refine ⟨⟨?_, ?_⟩, ?_, ?_⟩
  · rw [hrr, List.reverse_reverse]
    exact resolve_map_pattern b _ rr hresr
  · rw [hgr, List.reverse_reverse]
    exact resolve_map_pattern b _ gr hresg
  · intro hm
    obtain ⟨k, hk, hfind, hpk, hmax⟩ := find?_reverse_last _ rs.builder.regex_rules.reverse hm
    rw [List.reverse_reverse] at hfind
    exact ⟨k, hk, by rw [hmr]; exact hfind, hpk, hmax⟩
  · intro hm
    obtain ⟨k, hk, hfind, hpk, hmax⟩ := find?_reverse_last _ rs.builder.glob_rules.reverse hm
    rw [List.reverse_reverse] at hfind
    exact ⟨k, hk, by rw [hmg]; exact hfind, hpk, hmax⟩

/-- Witness for C3: two regex rules with the same pattern and two glob rules
with the same pattern, all matching the input; both single-kind queries select
the rule at the greatest declaration position. -/
theorem c3_build_reverses_last_declared_wins_witness :
    c3Builder.build plainEngines = .ok c3RuleSet ∧
    (∃ k, ∃ hk : k < c3RuleSet.builder.regex_rules.reverse.length,
      c3RuleSet.match_regex plainEngines "x" =
        some (c3RuleSet.builder.regex_rules.reverse.get ⟨k, hk⟩) ∧
      plainEngines.rxMatch c3RuleSet.builder.case_insensitive
        (c3RuleSet.builder.regex_rules.reverse.get ⟨k, hk⟩).pattern_as_str "x" = true ∧
      ∀ m, ∀ hm : m < c3RuleSet.builder.regex_rules.reverse.length, k < m →
        plainEngines.rxMatch c3RuleSet.builder.case_insensitive
          (c3RuleSet.builder.regex_rules.reverse.get ⟨m, hm⟩).pattern_as_str "x" = false) ∧
    (∃ k, ∃ hk : k < c3RuleSet.builder.glob_rules.reverse.length,
      c3RuleSet.match_glob plainEngines "x" =
        some (c3RuleSet.builder.glob_rules.reverse.get ⟨k, hk⟩) ∧
      plainEngines.glMatch c3RuleSet.builder.case_insensitive
        (c3RuleSet.builder.glob_rules.reverse.get ⟨k, hk⟩).pattern_as_str "x" = true ∧
      ∀ m, ∀ hm : m < c3RuleSet.builder.glob_rules.reverse.length, k < m →
        plainEngines.glMatch c3RuleSet.builder.case_insensitive
          (c3RuleSet.builder.glob_rules.reverse.get ⟨m, hm⟩).pattern_as_str "x" = false) := by
  refine ⟨rfl, ?_, ?_⟩
  · exact (c3_build_reverses_last_declared_wins plainEngines c3Builder c3RuleSet "x" rfl
      ).2.1 (by decide)
  · exact (c3_build_reverses_last_declared_wins plainEngines c3Builder c3RuleSet "x" rfl
      ).2.2 (by decide)

/-- Claim C4: storing the prepared command is write-once. On a resolved rule
whose capture extraction succeeds, a first prepare fills the empty execution
cell (and returns the rule updated exactly there); a second prepare on a rule
whose execution cell is already filled is the programming-error panic of the
expect on OnceCell::set, and never returns an updated rule — the cell is never
overwritten once set. -/
theorem c4_prepare_is_write_once (E : Engines) (r : Rule) (input : String)
    (hres : ∃ cmd, r.resolved = some cmd)
    (hcaps : ∃ caps, r.captures E input = .ok caps) :
    (r.execution = none →
      ∃ v r2, r.prepare E input = .ok r2 ∧ r2 = { r with execution := some v })
    ∧ (∀ v, r.execution = some v →
      r.prepare E input = .error (.panic "rule should not be ready for execution") ∧
      ∀ r2, r.prepare E input ≠ .ok r2) := by
  obtain ⟨cmd, hcmd⟩ := hres
  obtain ⟨caps, hcap⟩ := hcaps
  constructor
  · intro hex
    refine ⟨Rule.substitute_file E (Rule.substitute_captures E cmd caps) input,
      { r with execution := some _ }, ?_, rfl⟩
    unfold Rule.prepare
    rw [hcap]
    show Rule.substitute E r caps input = _
    unfold Rule.substitute
    rw [hcmd, hex]
  · intro v hex
    have hmain : r.prepare E input =
        .error (.panic "rule should not be ready for execution") := by
      unfold Rule.prepare
      rw [hcap]
      show Rule.substitute E r caps input = _
      unfold Rule.substitute
      rw [hcmd, hex]
    refine ⟨hmain, ?_⟩
    intro r2 hcon
    rw [hmain] at hcon
    exact Except.noConfusion hcon

/-- Witness for C4: the resolved catch-all rule prepares once, and preparing
the already-prepared rule panics. -/
theorem c4_prepare_is_write_once_witness :
    (cexRule.resolved = some "run" ∧ cexRule.captures plainEngines "file.txt" = .ok [] ∧
      cexRule.execution = none ∧
      ∃ v r2, cexRule.prepare plainEngines "file.txt" = .ok r2 ∧
        r2 = { cexRule with execution := some v })
    ∧ (c4PreparedRule.resolved = some "run" ∧
      c4PreparedRule.captures plainEngines "file.txt" = .ok [] ∧
      c4PreparedRule.execution = some "run file.txt" ∧
      c4PreparedRule.prepare plainEngines "file.txt" =
        .error (.panic "rule should not be ready for execution") ∧
      ∀ r2, c4PreparedRule.prepare plainEngines "file.txt" ≠ .ok r2) := by
  constructor
  · refine ⟨rfl, rfl, rfl, ?_⟩
    exact (c4_prepare_is_write_once plainEngines cexRule "file.txt"
      ⟨"run", rfl⟩ ⟨[], rfl⟩).1 rfl
  · refine ⟨rfl, rfl, rfl, ?_⟩
    exact (c4_prepare_is_write_once plainEngines c4PreparedRule "file.txt"
      ⟨"run", rfl⟩ ⟨[], rfl⟩).2 "run file.txt" rfl

/-- Claim C6: capture extraction for a glob rule yields the empty list; for a
regex rule it takes the group list of the external regex engine, skips group 0
and omits the groups that did not participate; placeholder substitution walks
the captures in order, replacing the tag of index i+1 by the individually
shell-quoted capture i; and preparation of a resolved regex rule stores the
command obtained by substituting first the captures and then the input. -/
theorem c6_capture_substitution (E : Engines) (r : Rule) (input : String) :
    ((∃ p, r.pattern = .Glob p) → r.captures E input = .ok [])
    ∧ (∀ p groups, r.pattern = .Regex p →
        E.rxCompileOk r.case_insensitive p = true →
        E.rxCaps r.case_insensitive p input = some groups →
        r.captures E input = .ok ((groups.drop 1).filterMap id))
    ∧ (∀ action caps, Rule.substitute_captures E action caps =
        caps.enum.foldl
          (fun acc q => strReplace acc ("%" ++ Nat.repr (q.1 + 1)) (E.quote q.2)) action)
    ∧ (∀ p groups resolved_cmd, r.pattern = .Regex p → r.resolved = some resolved_cmd →
        r.execution = none →
        E.rxCompileOk r.case_insensitive p = true →
        E.rxCaps r.case_insensitive p input = some groups →
        r.prepare E input = .ok { r with execution := some (
          Rule.substitute_file E
            (Rule.substitute_captures E resolved_cmd ((groups.drop 1).filterMap id))
            input) }) := by
  have hcaps : ∀ p groups, r.pattern = .Regex p →
      E.rxCompileOk r.case_insensitive p = true →
      E.rxCaps r.case_insensitive p input = some groups →
      r.captures E input = .ok ((groups.drop 1).filterMap id) := by
    intro p groups hp hcomp hc
    unfold Rule.captures
    have hstr : r.pattern_as_str = p := by
      unfold Rule.pattern_as_str
      rw [hp]
    rw [hp]
    show (if E.rxCompileOk r.case_insensitive r.pattern_as_str then _ else _) = _
    rw [hstr, if_pos hcomp, hc]
  refine ⟨?_, hcaps, ?_, ?_⟩
  · intro ⟨p, hp⟩
    unfold Rule.captures
    rw [hp]
  · intro action caps
    unfold Rule.substitute_captures
    have hgen : ∀ (caps : List String) (i : Nat) (action : String),
        substCapsFrom E i caps action =
          (caps.enumFrom i).foldl
            (fun acc q => strReplace acc ("%" ++ Nat.repr (q.1 + 1)) (E.quote q.2)) action := by
      intro caps
      induction caps with
      | nil => intro i action; rfl
      | cons c cs ih =>
        intro i action
        simp only [substCapsFrom, List.enumFrom, List.foldl]
        exact ih (i + 1) _
    exact hgen caps 0 action
  · intro p groups resolved_cmd hp hres hex hcomp hc
    unfold Rule.prepare
    rw [hcaps p groups hp hcomp hc]
    show Rule.substitute E r ((groups.drop 1).filterMap id) input = _
    unfold Rule.substitute
    rw [hres, hex]

/-- Witness for C6 on the example of the spec: the regex of two digit groups
with action run %1 %2 %s on input 12-34 captures 12 and 34 and prepares the
command run 12 34 12-34 (quoting leaves plain words unchanged). -/
theorem c6_capture_substitution_witness :
    c6Rule.pattern = .Regex "(\\d+)-(\\d+)" ∧
    exampleCapsEngines.rxCaps false "(\\d+)-(\\d+)" "12-34" =
      some [some "12-34", some "12", some "34"] ∧
    c6Rule.captures exampleCapsEngines "12-34" = .ok ["12", "34"] ∧
    c6Rule.prepare exampleCapsEngines "12-34" =
      .ok { c6Rule with execution := some "run 12 34 12-34" } := by
  refine ⟨rfl, rfl, ?_, ?_⟩
  · have h := (c6_capture_substitution exampleCapsEngines c6Rule "12-34").2.1
      "(\\d+)-(\\d+)" [some "12-34", some "12", some "34"] rfl rfl rfl
    exact h
  · have h := (c6_capture_substitution exampleCapsEngines c6Rule "12-34").2.2.2
      "(\\d+)-(\\d+)" [some "12-34", some "12", some "34"] "run %1 %2 %s" rfl rfl rfl rfl rfl
    rw [h]
    rfl

theorem resolveAction_command_eq (b : RuleSetBuilder) (cmd : ActionCommand) :
    b.resolveAction (.Command cmd) = .ok cmd := rfl

theorem resolveAction_alias_none (b : RuleSetBuilder) (id : AliasIdentifier)
    (h : b.alias_table.lookup id = none) :
    b.resolveAction (.Alias id) = .error (.aliasNotFound id b.profile) := by
  show (match b.alias_table.lookup id with
    | some s => Except.ok s
    | none => Except.error (RrrError.aliasNotFound id b.profile)) = _
  rw [h]

theorem resolveAction_alias_some (b : RuleSetBuilder) (id : AliasIdentifier)
    (cmd : ActionCommand) (h : b.alias_table.lookup id = some cmd) :
    b.resolveAction (.Alias id) = .ok cmd := by
  show (match b.alias_table.lookup id with
    | some s => Except.ok s
    | none => Except.error (RrrError.aliasNotFound id b.profile)) = _
  rw [h]

theorem rule_resolve_eq (b : RuleSetBuilder) (r : Rule) :
    Rule.resolve b r =
      match b.resolveAction r.action with
      | .error e => .error e
      | .ok cmd =>
        match r.resolved with
        | some _ => .error (.panic "rule should not be already resolved")
        | none => .ok { r with resolved := some cmd } := by
  unfold Rule.resolve
  cases h : b.resolveAction r.action with
  | error e => rfl
  | ok cmd => rfl

theorem resolve_rules_first_error (b : RuleSetBuilder) :
    ∀ rules : List Rule, (∀ r ∈ rules, r.resolved = none) →
      (∃ r ∈ rules, ∃ id, r.action = .Alias id ∧ b.alias_table.lookup id = none) →
      ∃ id, (∃ r ∈ rules, r.action = .Alias id) ∧ b.alias_table.lookup id = none ∧
        b.resolve rules = .error (.aliasNotFound id b.profile) := by
  intro rules
  induction rules with
  | nil =>
    rintro _ ⟨r, hr, _⟩
    cases hr
  | cons r rest ih =>
    intro hnone hbad
    cases hact : r.action with
    | Alias id =>
      cases hlook : b.alias_table.lookup id with
      | none =>
        refine ⟨id, ⟨r, List.mem_cons_self _ _, hact⟩, hlook, ?_⟩
        unfold RuleSetBuilder.resolve
        have hres : Rule.resolve b r = .error (.aliasNotFound id b.profile) := by
          rw [rule_resolve_eq, hact, resolveAction_alias_none b id hlook]
        rw [hres]
        rfl
      | some cmd =>
        have hresr : Rule.resolve b r = .ok { r with resolved := some cmd } := by
          rw [rule_resolve_eq, hact, resolveAction_alias_some b id cmd hlook]
          rw [hnone r (List.mem_cons_self _ _)]
        have hbadrest : ∃ r2 ∈ rest, ∃ id2, r2.action = .Alias id2 ∧
            b.alias_table.lookup id2 = none := by
          obtain ⟨r2, hr2, id2, hact2, hlook2⟩ := hbad
          rcases List.mem_cons.mp hr2 with heq | hmem
          · subst heq
            rw [hact] at hact2
            cases Action.Alias.inj hact2
            rw [hlook] at hlook2
            exact Option.noConfusion hlook2
          · exact ⟨r2, hmem, id2, hact2, hlook2⟩
        obtain ⟨id2, href, hlook2, herr⟩ :=
          ih (fun r2 h2 => hnone r2 (List.mem_cons_of_mem _ h2)) hbadrest
        refine ⟨id2, ?_, hlook2, ?_⟩
        · obtain ⟨r2, hmem, hact2⟩ := href
          exact ⟨r2, List.mem_cons_of_mem _ hmem, hact2⟩
        · unfold RuleSetBuilder.resolve
          rw [hresr, herr]
          rfl
    | Command cmd =>
      have hresr : Rule.resolve b r = .ok { r with resolved := some cmd } := by
        rw [rule_resolve_eq, hact, resolveAction_command_eq]
        rw [hnone r (List.mem_cons_self _ _)]
      have hbadrest : ∃ r2 ∈ rest, ∃ id2, r2.action = .Alias id2 ∧
          b.alias_table.lookup id2 = none := by
        obtain ⟨r2, hr2, id2, hact2, hlook2⟩ := hbad
        rcases List.mem_cons.mp hr2 with heq | hmem
        · subst heq
          rw [hact] at hact2
          exact Action.noConfusion hact2
        · exact ⟨r2, hmem, id2, hact2, hlook2⟩
      obtain ⟨id2, href, hlook2, herr⟩ :=
        ih (fun r2 h2 => hnone r2 (List.mem_cons_of_mem _ h2)) hbadrest
      refine ⟨id2, ?_, hlook2, ?_⟩
      · obtain ⟨r2, hmem, hact2⟩ := href
        exact ⟨r2, List.mem_cons_of_mem _ hmem, hact2⟩
      · unfold RuleSetBuilder.resolve
        rw [hresr, herr]
        rfl

theorem resolve_rules_ok_of_resolvable (b : RuleSetBuilder) :
    ∀ rules : List Rule, (∀ r ∈ rules, r.resolved = none) →
      (∀ r ∈ rules, ∀ id, r.action = .Alias id → b.alias_table.lookup id ≠ none) →
      ∃ rr, b.resolve rules = .ok rr := by
  intro rules
  induction rules with
  | nil => exact fun _ _ => ⟨[], rfl⟩
  | cons r rest ih =>
    intro hnone hok
    have hstep : ∃ r2, Rule.resolve b r = .ok r2 := by
      cases hact : r.action with
      | Alias id =>
        cases hlook : b.alias_table.lookup id with
        | none => exact absurd hlook (hok r (List.mem_cons_self _ _) id hact)
        | some cmd =>
          refine ⟨{ r with resolved := some cmd }, ?_⟩
          rw [rule_resolve_eq, hact, resolveAction_alias_some b id cmd hlook]
          rw [hnone r (List.mem_cons_self _ _)]
      | Command cmd =>
        refine ⟨{ r with resolved := some cmd }, ?_⟩
        rw [rule_resolve_eq, hact, resolveAction_command_eq]
        rw [hnone r (List.mem_cons_self _ _)]
    obtain ⟨r2, hr2⟩ := hstep
    obtain ⟨rest2, hrest⟩ := ih (fun x hx => hnone x (List.mem_cons_of_mem _ hx))
      (fun x hx => hok x (List.mem_cons_of_mem _ hx))
    refine ⟨r2 :: rest2, ?_⟩
    unfold RuleSetBuilder.resolve
    rw [hr2, hrest]
    rfl

/-- Claim C7: when some rule of the builder references an alias identifier
absent from the profile alias table, build fails with the unresolved-alias
error naming an offending identifier and the profile, and no rule set is
produced — resolution failure of one rule aborts the whole build. A rule
whose action is a literal command resolves to its text unchanged. -/
theorem c7_unresolved_alias_aborts_build (E : Engines) (b : RuleSetBuilder)
    (hnone : ∀ r ∈ b.regex_rules ++ b.glob_rules, r.resolved = none)
    (hbad : ∃ r ∈ b.regex_rules ++ b.glob_rules, ∃ id,
      r.action = .Alias id ∧ b.alias_table.lookup id = none) :
    (∃ id, (∃ r ∈ b.regex_rules ++ b.glob_rules, r.action = .Alias id) ∧
      b.alias_table.lookup id = none ∧
      b.build E = .error (.aliasNotFound id b.profile) ∧
      (RrrError.aliasNotFound id b.profile).message =
        "Alias " ++ id ++ " does not exist in profile " ++ b.profile)
    ∧ (∀ rs, b.build E ≠ .ok rs)
    ∧ (∀ cmd, b.resolveAction (.Command cmd) = .ok cmd) := by
  have hnr : ∀ r ∈ b.regex_rules, r.resolved = none :=
    fun r h => hnone r (List.mem_append_left _ h)
  have hng : ∀ r ∈ b.glob_rules, r.resolved = none :=
    fun r h => hnone r (List.mem_append_right _ h)
  have hmain : ∃ id, (∃ r ∈ b.regex_rules ++ b.glob_rules, r.action = .Alias id) ∧
      b.alias_table.lookup id = none ∧
      b.build E = .error (.aliasNotFound id b.profile) := by
    by_cases hbr : ∃ r ∈ b.regex_rules, ∃ id, r.action = .Alias id ∧
        b.alias_table.lookup id = none
    · obtain ⟨id, ⟨r, hmem, hact⟩, hlook, herr⟩ := resolve_rules_first_error b _ hnr hbr
      refine ⟨id, ⟨r, List.mem_append_left _ hmem, hact⟩, hlook, ?_⟩
      unfold RuleSetBuilder.build
      rw [herr]
      rfl
    · push_neg at hbr
      have hokr : ∀ r ∈ b.regex_rules, ∀ id, r.action = .Alias id →
          b.alias_table.lookup id ≠ none := by
        intro r hmem id hact hlook
        exact absurd hlook (hbr r hmem id hact)
      obtain ⟨rr, hrr⟩ := resolve_rules_ok_of_resolvable b _ hnr hokr
      have hbg : ∃ r ∈ b.glob_rules, ∃ id, r.action = .Alias id ∧
          b.alias_table.lookup id = none := by
        obtain ⟨r, hmem, id, hact, hlook⟩ := hbad
        rcases List.mem_append.mp hmem with hm | hm
        · exact absurd hlook (hbr r hm id hact)
        · exact ⟨r, hm, id, hact, hlook⟩
      obtain ⟨id, ⟨r, hmem, hact⟩, hlook, herr⟩ := resolve_rules_first_error b _ hng hbg
      refine ⟨id, ⟨r, List.mem_append_right _ hmem, hact⟩, hlook, ?_⟩
      unfold RuleSetBuilder.build
      rw [hrr, herr]
      rfl
  obtain ⟨id, href, hlook, herr⟩ := hmain
  refine ⟨⟨id, href, hlook, herr, rfl⟩, ?_, fun _ => rfl⟩
  intro rs hcon
  rw [herr] at hcon
  exact Except.noConfusion hcon

/-- Witness for C7: a builder whose only rule references the undeclared alias
viewer; build fails with the unresolved-alias error and produces no rule
set. -/
theorem c7_unresolved_alias_aborts_build_witness :
    (∀ r ∈ c7Builder.regex_rules ++ c7Builder.glob_rules, r.resolved = none) ∧
    (∃ id, (∃ r ∈ c7Builder.regex_rules ++ c7Builder.glob_rules, r.action = .Alias id) ∧
      c7Builder.alias_table.lookup id = none ∧
      c7Builder.build plainEngines = .error (.aliasNotFound id c7Builder.profile) ∧
      (RrrError.aliasNotFound id c7Builder.profile).message =
        "Alias " ++ id ++ " does not exist in profile " ++ c7Builder.profile) ∧
    (∀ rs, c7Builder.build plainEngines ≠ .ok rs) := by
  have h := c7_unresolved_alias_aborts_build plainEngines c7Builder (by decide)
    ⟨c7Rule, by decide, "viewer", rfl, rfl⟩
  exact ⟨by decide, h.1, h.2.1⟩

/-- Claim C10: looking up a profile identifier absent from the built map
returns the error naming the requested profile, and never a rule set; the
lookup is a pure read of the map (the model is functional, and the source
takes the map by shared reference). -/
theorem c10_unknown_profile_is_error (rrr : Rrr) (q : ProfileIdentifier)
    (h : rrr.profiles.lookup q = none) :
    rrr.profile q = .error (.profileNotFound q) ∧
    (∀ rule_set, rrr.profile q ≠ .ok rule_set) ∧
    (RrrError.profileNotFound q).message = "Profile " ++ q ++ " does not exist" := by
  have hmain : rrr.profile q = .error (.profileNotFound q) := by
    unfold Rrr.profile
    rw [h]
  refine ⟨hmain, ?_, rfl⟩
  intro rule_set hcon
  rw [hmain] at hcon
  exact Except.noConfusion hcon

/-- Witness for C10: the profile work does not exist in the single-profile
dispatcher, and the lookup errors naming it. -/
theorem c10_unknown_profile_is_error_witness :
    cexRrr.profiles.lookup "work" = none ∧
    cexRrr.profile "work" = .error (.profileNotFound "work") ∧
    (∀ rule_set, cexRrr.profile "work" ≠ .ok rule_set) := by
  have h := c10_unknown_profile_is_error cexRrr "work" (by decide)
  exact ⟨by decide, h.1, h.2.1⟩

/-- Counterexample to claim C1 as stated: a fallback dispatch whose match list
holds exactly one candidate, whose execution fails; the walk logs the failure,
exhausts the candidates, and the dispatcher returns success for the input, not
an error. -/
theorem c1_all_fail_returns_ok_counterexample :
    cexRuleSet.matches plainEngines "x" = [cexRule] ∧
    process_rule plainEngines failingOs fallbackArgs cexRule "x" =
      .ok (.with_execution (.error (.execFailed "exit status 1")),
           { cexRule with execution := some "run x" }) ∧
    process_input_with_fallback plainEngines failingOs fallbackArgs cexRrr "x" =
      .ok ["execution failed (continuing with next match): executing failed exit status 1"] :=
  ⟨rfl, rfl, rfl⟩

theorem fallbackWalk_all_fail (E : Engines) (os : OsBoundary) (args : Args) (input : String) :
    ∀ ms : List Rule,
      (∀ r ∈ ms, ∃ e r2,
        process_rule E os args r input = .ok (.with_execution (.error e), r2)) →
      ∃ log, fallbackWalk E os args input ms true = .ok log ∧ log.length = ms.length := by
  intro ms
  induction ms with
  | nil => exact fun _ => ⟨[], rfl, rfl⟩
  | cons r rest ih =>
    intro hall
    obtain ⟨e, r2, hr⟩ := hall r (List.mem_cons_self _ _)
    obtain ⟨log2, hlog2, hlen2⟩ := ih (fun x hx => hall x (List.mem_cons_of_mem _ hx))
    refine ⟨("execution failed (continuing with next match): " ++ e.message) :: log2, ?_, ?_⟩
    · unfold fallbackWalk
      rw [hr]
      show (fun log => ("execution failed (continuing with next match): " ++ e.message) :: log)
          <$> fallbackWalk E os args input rest true = _
      rw [hlog2]
      rfl
    · simp [hlen2]

/-- Claim C1, amended: in fallback mode, for every input whose ordered match
list is non-empty, the dispatcher walks the candidates in order; a candidate
whose execution fails is logged and the walk continues; and when every
candidate fails, the dispatcher — after exhausting the candidates and logging
one failure per candidate — returns success for the input (Ok, with the
failures only logged), not an error. -/
theorem c1_fallback_all_fail_reports_ok (E : Engines) (os : OsBoundary) (args : Args)
    (rrr : Rrr) (input : String) (rule_set : RuleSet)
    (hprof : rrr.profile args.profile = .ok rule_set)
    (hne : rule_set.matches E input ≠ [])
    (hall : ∀ r ∈ rule_set.matches E input, ∃ e r2,
      process_rule E os args r input = .ok (.with_execution (.error e), r2)) :
    ∃ log, process_input_with_fallback E os args rrr input = .ok log ∧
      log.length = (rule_set.matches E input).length := by
  have hstart : process_input_with_fallback E os args rrr input =
      fallbackWalk E os args input (rule_set.matches E input) false := by
    unfold process_input_with_fallback
    rw [hprof]
    rfl
  cases hms : rule_set.matches E input with
  | nil => exact absurd hms hne
  | cons r rest =>
    rw [hms] at hstart hall
    obtain ⟨e, r2, hr⟩ := hall r (List.mem_cons_self _ _)
    obtain ⟨log2, hlog2, hlen2⟩ := fallbackWalk_all_fail E os args input rest
      (fun x hx => hall x (List.mem_cons_of_mem _ hx))
    refine ⟨("execution failed (continuing with next match): " ++ e.message) :: log2, ?_, ?_⟩
    · rw [hstart]
      unfold fallbackWalk
      rw [hr]
      show (fun log => ("execution failed (continuing with next match): " ++ e.message) :: log)
          <$> fallbackWalk E os args input rest true = _
      rw [hlog2]
      rfl
    · simp only [hms, List.length_cons, hlen2]

/-- Witness for the amended C1: the one-candidate fallback walk whose
execution fails returns success with one logged failure. -/
theorem c1_fallback_all_fail_reports_ok_witness :
    cexRrr.profile fallbackArgs.profile = .ok cexRuleSet ∧
    cexRuleSet.matches plainEngines "x" ≠ [] ∧
    ∃ log, process_input_with_fallback plainEngines failingOs fallbackArgs cexRrr "x" =
      .ok log ∧ log.length = (cexRuleSet.matches plainEngines "x").length := by
  refine ⟨rfl, by decide, ?_⟩
  refine c1_fallback_all_fail_reports_ok plainEngines failingOs fallbackArgs cexRrr "x"
    cexRuleSet rfl (by decide) ?_
  intro r hr
  have hx : r = cexRule := by
    have : cexRuleSet.matches plainEngines "x" = [cexRule] := rfl
    rw [this] at hr
    simpa using hr
  subst hx
  exact ⟨.execFailed "exit status 1", { cexRule with execution := some "run x" }, rfl⟩

theorem config_visited (fs : ConfigFS) (b : RrrBuilder) (p : String) (ls : List ConfigLine)
    (hread : fs.files.lookup p = some ls) (hv : p ∈ b.loaded_config_files) :
    RrrBuilder.config fs b p = .ok b := by
  unfold RrrBuilder.config
  unfold loadGo
  split
  next heq => rw [hread] at heq; exact Option.noConfusion heq
  next ls2 heq =>
    rw [dif_pos hv]
    rfl

theorem config_fresh (fs : ConfigFS) (b : RrrBuilder) (p : String) (ls : List ConfigLine)
    (hread : fs.files.lookup p = some ls) (hv : p ∉ b.loaded_config_files) :
    RrrBuilder.config fs b p = RrrBuilder.loadLines fs (b.markVisited p) p ls := by
  unfold RrrBuilder.config
  generalize hR : RrrBuilder.loadLines fs (b.markVisited p) p ls = R
  unfold loadGo
  split
  next heq => rw [hread] at heq; exact Option.noConfusion heq
  next ls2 heq =>
    rw [hread] at heq
    have hls : ls = ls2 := Option.some.inj heq
    subst hls
    rw [dif_neg hv, ← hR]
    unfold RrrBuilder.loadLines
    cases hg : loadGo fs (.lines (b.markVisited p) p ls) with
    | error e => rfl
    | ok bs => cases bs; rfl

theorem loadLines_nil (fs : ConfigFS) (b : RrrBuilder) (f : String) :
    RrrBuilder.loadLines fs b f [] = .ok b := by
  unfold RrrBuilder.loadLines
  unfold loadGo
  rfl

theorem loadGo_lines_include (fs : ConfigFS) (b : RrrBuilder) (f t : String)
    (ls : List ConfigLine) :
    loadGo fs (.lines b f (.includeLine t :: ls)) =
      match loadGo fs (.file b t) with
      | .error e => .error e
      | .ok ⟨b1, h1⟩ =>
        match loadGo fs (.lines b1 f ls) with
        | .error e => .error e
        | .ok ⟨b2, h2⟩ => .ok ⟨b2, fun x hx => h2 (h1 hx)⟩ := by
  conv_lhs => rw [loadGo.eq_def]

theorem loadLines_cons_include (fs : ConfigFS) (b : RrrBuilder) (f t : String)
    (ls : List ConfigLine) :
    RrrBuilder.loadLines fs b f (.includeLine t :: ls) =
      RrrBuilder.config fs b t >>= fun b1 => RrrBuilder.loadLines fs b1 f ls := by
  unfold RrrBuilder.loadLines RrrBuilder.config
  rw [loadGo_lines_include]
  cases hg : loadGo fs (.file b t) with
  | error e => rfl
  | ok bs =>
    cases bs with
    | mk b1 h1 =>
      show Except.map Subtype.val (match loadGo fs (.lines b1 f ls) with
        | .error e => .error e
        | .ok ⟨b2, h2⟩ => .ok ⟨b2, fun x hx => h2 (h1 hx)⟩) =
          Except.map Subtype.val (loadGo fs (.lines b1 f ls))
      cases hg2 : loadGo fs (.lines b1 f ls) with
      | error e => rfl
      | ok bs2 => cases bs2; rfl

theorem loadLines_cons_import (fs : ConfigFS) (b : RrrBuilder) (f t : String)
    (ls : List ConfigLine) :
    RrrBuilder.loadLines fs b f (.importLine t :: ls) = .error .importDisabled := by
  unfold RrrBuilder.loadLines
  unfold loadGo
  rfl

theorem loadGo_lines_profile (fs : ConfigFS) (b : RrrBuilder) (f n : String)
    (ls : List ConfigLine) :
    loadGo fs (.lines b f (.profileLine n :: ls)) =
      match loadGo fs (.lines (b.parse_meta_profile n) f ls) with
      | .error e => .error e
      | .ok ⟨b2, h2⟩ => .ok ⟨b2, fun x hx => h2 hx⟩ := by
  conv_lhs => rw [loadGo.eq_def]

theorem loadLines_cons_profile (fs : ConfigFS) (b : RrrBuilder) (f n : String)
    (ls : List ConfigLine) :
    RrrBuilder.loadLines fs b f (.profileLine n :: ls) =
      RrrBuilder.loadLines fs (b.parse_meta_profile n) f ls := by
  unfold RrrBuilder.loadLines
  rw [loadGo_lines_profile]
  cases hg : loadGo fs (.lines (b.parse_meta_profile n) f ls) with
  | error e => rfl
  | ok bs => cases bs; rfl

theorem loadGo_lines_alias (fs : ConfigFS) (b : RrrBuilder) (f identifier action : String)
    (ls : List ConfigLine) :
    loadGo fs (.lines b f (.aliasLine identifier action :: ls)) =
      match b.parse_alias identifier action with
      | .error e => .error e
      | .ok ⟨b1, h1⟩ =>
        match loadGo fs (.lines b1 f ls) with
        | .error e => .error e
        | .ok ⟨b2, h2⟩ => .ok ⟨b2, fun x hx => h2 (h1.symm ▸ hx)⟩ := by
  conv_lhs => rw [loadGo.eq_def]

theorem loadLines_cons_alias (fs : ConfigFS) (b : RrrBuilder) (f identifier action : String)
    (ls : List ConfigLine) :
    RrrBuilder.loadLines fs b f (.aliasLine identifier action :: ls) =
      (b.parse_alias identifier action).map Subtype.val >>= fun b1 =>
        RrrBuilder.loadLines fs b1 f ls := by
  unfold RrrBuilder.loadLines
  rw [loadGo_lines_alias]
  cases hp : b.parse_alias identifier action with
  | error e => rfl
  | ok bs =>
    cases bs with
    | mk b1 h1 =>
      show Except.map Subtype.val (match loadGo fs (.lines b1 f ls) with
        | .error e => .error e
        | .ok ⟨b2, h2⟩ => .ok ⟨b2, fun x hx => h2 (h1.symm ▸ hx)⟩) =
          Except.map Subtype.val (loadGo fs (.lines b1 f ls))
      cases hg : loadGo fs (.lines b1 f ls) with
      | error e => rfl
      | ok bs2 => cases bs2; rfl

theorem loadLines_cons_match_invalid (fs : ConfigFS) (b : RrrBuilder) (f : String)
    (pattern : Pattern) (text : String) (line column : Nat) (ls : List ConfigLine) :
    RrrBuilder.loadLines fs b f (.matchLine pattern (.invalidAlias text) line column :: ls) =
      .error (.invalidAliasInMatch text) := by
  unfold RrrBuilder.loadLines
  unfold loadGo
  rfl

theorem loadGo_lines_match_alias (fs : ConfigFS) (b : RrrBuilder) (f : String)
    (pattern : Pattern) (identifier : String) (line column : Nat) (ls : List ConfigLine) :
    loadGo fs (.lines b f (.matchLine pattern (.aliasId identifier) line column :: ls)) =
      match b.parse_match f pattern (.aliasId identifier) line column with
      | .error e => .error e
      | .ok ⟨b1, h1⟩ =>
        match loadGo fs (.lines b1 f ls) with
        | .error e => .error e
        | .ok ⟨b2, h2⟩ => .ok ⟨b2, fun x hx => h2 (h1.symm ▸ hx)⟩ := by
  conv_lhs => rw [loadGo.eq_def]

theorem loadLines_cons_match_alias (fs : ConfigFS) (b : RrrBuilder) (f : String)
    (pattern : Pattern) (identifier : String) (line column : Nat) (ls : List ConfigLine) :
    RrrBuilder.loadLines fs b f (.matchLine pattern (.aliasId identifier) line column :: ls) =
      (b.parse_match f pattern (.aliasId identifier) line column).map Subtype.val >>= fun b1 =>
        RrrBuilder.loadLines fs b1 f ls := by
  unfold RrrBuilder.loadLines
  rw [loadGo_lines_match_alias]
  cases hp : b.parse_match f pattern (.aliasId identifier) line column with
  | error e => rfl
  | ok bs =>
    cases bs with
    | mk b1 h1 =>
      show Except.map Subtype.val (match loadGo fs (.lines b1 f ls) with
        | .error e => .error e
        | .ok ⟨b2, h2⟩ => .ok ⟨b2, fun x hx => h2 (h1.symm ▸ hx)⟩) =
          Except.map Subtype.val (loadGo fs (.lines b1 f ls))
      cases hg : loadGo fs (.lines b1 f ls) with
      | error e => rfl
      | ok bs2 => cases bs2; rfl

theorem loadGo_lines_match_command (fs : ConfigFS) (b : RrrBuilder) (f : String)
    (pattern : Pattern) (text : String) (line column : Nat) (ls : List ConfigLine) :
    loadGo fs (.lines b f (.matchLine pattern (.command text) line column :: ls)) =
      match b.parse_match f pattern (.command text) line column with
      | .error e => .error e
      | .ok ⟨b1, h1⟩ =>
        match loadGo fs (.lines b1 f ls) with
        | .error e => .error e
        | .ok ⟨b2, h2⟩ => .ok ⟨b2, fun x hx => h2 (h1.symm ▸ hx)⟩ := by
  conv_lhs => rw [loadGo.eq_def]

theorem loadLines_cons_match_command (fs : ConfigFS) (b : RrrBuilder) (f : String)
    (pattern : Pattern) (text : String) (line column : Nat) (ls : List ConfigLine) :
    RrrBuilder.loadLines fs b f (.matchLine pattern (.command text) line column :: ls) =
      (b.parse_match f pattern (.command text) line column).map Subtype.val >>= fun b1 =>
        RrrBuilder.loadLines fs b1 f ls := by
  unfold RrrBuilder.loadLines
  rw [loadGo_lines_match_command]
  cases hp : b.parse_match f pattern (.command text) line column with
  | error e => rfl
  | ok bs =>
    cases bs with
    | mk b1 h1 =>
      show Except.map Subtype.val (match loadGo fs (.lines b1 f ls) with
        | .error e => .error e
        | .ok ⟨b2, h2⟩ => .ok ⟨b2, fun x hx => h2 (h1.symm ▸ hx)⟩) =
          Except.map Subtype.val (loadGo fs (.lines b1 f ls))
      cases hg : loadGo fs (.lines b1 f ls) with
      | error e => rfl
      | ok bs2 => cases bs2; rfl

theorem loadLines_cons_invalid_meta (fs : ConfigFS) (b : RrrBuilder) (f t : String)
    (ls : List ConfigLine) :
    RrrBuilder.loadLines fs b f (.invalidMetaLine t :: ls) = .error (.invalidMeta t) := by
  unfold RrrBuilder.loadLines
  unfold loadGo
  rfl

theorem loadLines_cons_invalid_alias (fs : ConfigFS) (b : RrrBuilder) (f t : String)
    (ls : List ConfigLine) :
    RrrBuilder.loadLines fs b f (.invalidAliasLine t :: ls) =
      .error (.invalidAliasLine t) := by
  unfold RrrBuilder.loadLines
  unfold loadGo
  rfl

theorem loadLines_append (fs : ConfigFS) (f : String) :
    ∀ (l1 l2 : List ConfigLine) (b : RrrBuilder),
      RrrBuilder.loadLines fs b f (l1 ++ l2) =
        RrrBuilder.loadLines fs b f l1 >>= fun b1 => RrrBuilder.loadLines fs b1 f l2 := by
  intro l1
  induction l1 with
  | nil =>
    intro l2 b
    rw [List.nil_append, loadLines_nil]
    rfl
  | cons l rest ih =>
    intro l2 b
    cases l with
    | includeLine t =>
      rw [List.cons_append, loadLines_cons_include, loadLines_cons_include]
      cases hc : RrrBuilder.config fs b t with
      | error e => rfl
      | ok b1 =>
        show RrrBuilder.loadLines fs b1 f (rest ++ l2) =
          RrrBuilder.loadLines fs b1 f rest >>= fun b2 => RrrBuilder.loadLines fs b2 f l2
        exact ih l2 b1
    | importLine t =>
      rw [List.cons_append, loadLines_cons_import, loadLines_cons_import]
      rfl
    | profileLine n =>
      rw [List.cons_append, loadLines_cons_profile, loadLines_cons_profile]
      exact ih l2 _
    | aliasLine identifier action =>
      rw [List.cons_append, loadLines_cons_alias, loadLines_cons_alias]
      cases hp : b.parse_alias identifier action with
      | error e => rfl
      | ok bs =>
        cases bs with
        | mk b1 h1 =>
          show RrrBuilder.loadLines fs b1 f (rest ++ l2) =
            RrrBuilder.loadLines fs b1 f rest >>= fun b2 => RrrBuilder.loadLines fs b2 f l2
          exact ih l2 b1
    | matchLine pattern target line column =>
      cases target with
      | aliasId identifier =>
        rw [List.cons_append, loadLines_cons_match_alias, loadLines_cons_match_alias]
        cases hp : b.parse_match f pattern (.aliasId identifier) line column with
        | error e => rfl
        | ok bs =>
          cases bs with
          | mk b1 h1 =>
            show RrrBuilder.loadLines fs b1 f (rest ++ l2) =
              RrrBuilder.loadLines fs b1 f rest >>= fun b2 => RrrBuilder.loadLines fs b2 f l2
            exact ih l2 b1
      | command text =>
        rw [List.cons_append, loadLines_cons_match_command, loadLines_cons_match_command]
        cases hp : b.parse_match f pattern (.command text) line column with
        | error e => rfl
        | ok bs =>
          cases bs with
          | mk b1 h1 =>
            show RrrBuilder.loadLines fs b1 f (rest ++ l2) =
              RrrBuilder.loadLines fs b1 f rest >>= fun b2 => RrrBuilder.loadLines fs b2 f l2
            exact ih l2 b1
      | invalidAlias text =>
        rw [List.cons_append, loadLines_cons_match_invalid, loadLines_cons_match_invalid]
        rfl
    | invalidMetaLine t =>
      rw [List.cons_append, loadLines_cons_invalid_meta, loadLines_cons_invalid_meta]
      rfl
    | invalidAliasLine t =>
      rw [List.cons_append, loadLines_cons_invalid_alias, loadLines_cons_invalid_alias]
      rfl

theorem loadLines_mono (fs : ConfigFS) (b : RrrBuilder) (f : String) (ls : List ConfigLine)
    (b2 : RrrBuilder) (h : RrrBuilder.loadLines fs b f ls = .ok b2) :
    b.loaded_config_files ⊆ b2.loaded_config_files := by
  unfold RrrBuilder.loadLines at h
  cases hg : loadGo fs (.lines b f ls) with
  | error e =>
    rw [hg] at h
    exact Except.noConfusion h
  | ok bs =>
    rw [hg] at h
    cases bs with
    | mk b3 hsub =>
      have hb : b3 = b2 := Except.ok.inj h
      exact hb ▸ hsub

/-- Claim C8: loading a configuration file whose canonical path has already
been loaded is a silent no-op that returns the accumulated state unchanged;
consequently, when a file includes itself, its lines around the
self-include are each processed exactly once and the self-include itself
contributes nothing (the recursive call returns at the visited check), so its
rules are not registered twice. The loader is a total function, defined by
recursion on the count of unvisited files, so no include cycle can loop. -/
theorem c8_idempotent_loading (fs : ConfigFS) (b : RrrBuilder) (p : String)
    (ls : List ConfigLine) (hread : fs.files.lookup p = some ls) :
    (p ∈ b.loaded_config_files → RrrBuilder.config fs b p = .ok b)
    ∧ (∀ ls1 ls2, ls = ls1 ++ ConfigLine.includeLine p :: ls2 →
        p ∉ b.loaded_config_files →
        RrrBuilder.config fs b p =
          RrrBuilder.loadLines fs (b.markVisited p) p ls1 >>= fun b1 =>
            RrrBuilder.loadLines fs b1 p ls2) := by
  constructor
  · intro hv
    exact config_visited fs b p ls hread hv
  · intro ls1 ls2 hls hv
    rw [config_fresh fs b p ls hread hv, hls, loadLines_append]
    cases hL : RrrBuilder.loadLines fs (b.markVisited p) p ls1 with
    | error e => rfl
    | ok b1 =>
      show RrrBuilder.loadLines fs b1 p (ConfigLine.includeLine p :: ls2) =
        RrrBuilder.loadLines fs b1 p ls2
      rw [loadLines_cons_include]
      have hv1 : p ∈ b1.loaded_config_files := by
        apply loadLines_mono fs (b.markVisited p) p ls1 b1 hL
        exact List.mem_cons_self _ _
      rw [config_visited fs b1 p ls hread hv1]
      rfl

/-- Witness for C8: the self-including file. The first application is at a
state that has already visited it (a no-op); the second shows the fresh load
processes the one rule line and then the tail, with the self-include skipped. -/
theorem c8_idempotent_loading_witness :
    (("rrr.conf" : String) ∈ c8BuilderVisited.loaded_config_files ∧
      RrrBuilder.config selfIncludeFS c8BuilderVisited "rrr.conf" = .ok c8BuilderVisited)
    ∧ (RrrBuilder.config selfIncludeFS c8Builder "rrr.conf" =
        RrrBuilder.loadLines selfIncludeFS (c8Builder.markVisited "rrr.conf") "rrr.conf"
          [ConfigLine.matchLine (.Glob "*.txt") (.command "run") 1 1] >>= fun b1 =>
          RrrBuilder.loadLines selfIncludeFS b1 "rrr.conf" []) := by
  constructor
  · refine ⟨by decide, ?_⟩
    exact (c8_idempotent_loading selfIncludeFS c8BuilderVisited "rrr.conf"
      [ConfigLine.matchLine (.Glob "*.txt") (.command "run") 1 1,
       ConfigLine.includeLine "rrr.conf"] rfl).1 (by decide)
  · exact (c8_idempotent_loading selfIncludeFS c8Builder "rrr.conf"
      [ConfigLine.matchLine (.Glob "*.txt") (.command "run") 1 1,
       ConfigLine.includeLine "rrr.conf"] rfl).2
      [ConfigLine.matchLine (.Glob "*.txt") (.command "run") 1 1] [] rfl (by decide)

theorem config_none (fs : ConfigFS) (b : RrrBuilder) (p : String)
    (h : fs.files.lookup p = none) :
    RrrBuilder.config fs b p = .error (.ioError p) := by
  unfold RrrBuilder.config
  unfold loadGo
  split
  next heq => rfl
  next ls2 heq => rw [h] at heq; exact Option.noConfusion heq

theorem markVisited_filterInv (b : RrrBuilder) (p : String) :
    (b.markVisited p).filterInv = b.filterInv := rfl

theorem markVisited_only (b : RrrBuilder) (p : String) :
    (b.markVisited p).only_profiles = b.only_profiles := rfl

theorem filterInv_updateProfile (b : RrrBuilder) (f : RuleSetBuilder → RuleSetBuilder)
    (hload : b.is_profile_loadable = true) (hinv : b.filterInv = true) :
    RrrBuilder.filterInv
      { b with profiles := updateProfile b.profiles b.current_profile f } = true := by
  unfold RrrBuilder.filterInv at hinv ⊢
  unfold RrrBuilder.is_profile_loadable at hload
  revert hload hinv
  cases b.only_profiles with
  | none => intro _ _; rfl
  | some only_profiles =>
    intro hload hinv
    show (updateProfile b.profiles b.current_profile f).all (fun pr =>
      only_profiles.contains pr.1 ||
        (pr.2.alias_table.isEmpty && pr.2.regex_rules.isEmpty && pr.2.glob_rules.isEmpty)) =
      true
    have hload2 : only_profiles.contains b.current_profile = true := hload
    have hinv2 : b.profiles.all (fun pr =>
        only_profiles.contains pr.1 ||
          (pr.2.alias_table.isEmpty && pr.2.regex_rules.isEmpty && pr.2.glob_rules.isEmpty)) =
        true := hinv
    rw [List.all_eq_true] at hinv2 ⊢
    intro x hx
    unfold updateProfile at hx
    obtain ⟨pr, hpr, hgx⟩ := List.mem_map.mp hx
    by_cases hk : pr.1 == b.current_profile
    · rw [if_pos hk] at hgx
      rw [← hgx]
      have hcur : pr.1 = b.current_profile := eq_of_beq hk
      have hmem : b.current_profile ∈ only_profiles := by simpa using hload2
      simp [hcur]
      exact Or.inl hmem
    · rw [if_neg hk] at hgx
      rw [← hgx]
      exact hinv2 pr hpr

theorem parse_meta_profile_preserves (b : RrrBuilder) (n : String)
    (hinv : b.filterInv = true) :
    (b.parse_meta_profile n).filterInv = true ∧
    (b.parse_meta_profile n).only_profiles = b.only_profiles := by
  refine ⟨?_, rfl⟩
  unfold RrrBuilder.parse_meta_profile
  unfold RrrBuilder.filterInv at hinv ⊢
  revert hinv
  cases b.only_profiles with
  | none => intro _; rfl
  | some only_profiles =>
    intro hinv
    have hinv2 : b.profiles.all (fun pr =>
        only_profiles.contains pr.1 ||
          (pr.2.alias_table.isEmpty && pr.2.regex_rules.isEmpty && pr.2.glob_rules.isEmpty)) =
        true := hinv
    cases hlook : b.profiles.lookup n with
    | some rsb => exact hinv2
    | none =>
      show (b.profiles ++ [(n, RuleSetBuilder.new n b.case_insensitive)]).all (fun pr =>
        only_profiles.contains pr.1 ||
          (pr.2.alias_table.isEmpty && pr.2.regex_rules.isEmpty && pr.2.glob_rules.isEmpty)) =
        true
      rw [List.all_eq_true] at hinv2 ⊢
      intro x hx
      rcases List.mem_append.mp hx with hm | hm
      · exact hinv2 x hm
      · have hxval : x = (n, RuleSetBuilder.new n b.case_insensitive) := by simpa using hm
        rw [hxval]
        simp [RuleSetBuilder.new]

theorem parse_alias_preserves (b : RrrBuilder) (identifier action : String)
    (b2 : RrrBuilder) (h1 : b2.loaded_config_files = b.loaded_config_files)
    (h : b.parse_alias identifier action = .ok ⟨b2, h1⟩) (hinv : b.filterInv = true) :
    b2.filterInv = true ∧ b2.only_profiles = b.only_profiles := by
  unfold RrrBuilder.parse_alias at h
  by_cases hload : b.is_profile_loadable = true
  · rw [if_pos hload] at h
    cases hlook : b.profiles.lookup b.current_profile with
    | none =>
      rw [hlook] at h
      exact Except.noConfusion h
    | some rsb =>
      rw [hlook] at h
      have hsub := Except.ok.inj h
      simp only [Subtype.mk.injEq] at hsub
      rw [← hsub]
      exact ⟨filterInv_updateProfile b _ hload hinv, rfl⟩
  · rw [if_neg hload] at h
    have hsub := Except.ok.inj h
    simp only [Subtype.mk.injEq] at hsub
    rw [← hsub]
    exact ⟨hinv, rfl⟩

theorem parse_match_preserves (b : RrrBuilder) (f : String) (pattern : Pattern)
    (target : MatchTarget) (line column : Nat)
    (b2 : RrrBuilder) (h1 : b2.loaded_config_files = b.loaded_config_files)
    (h : b.parse_match f pattern target line column = .ok ⟨b2, h1⟩)
    (hinv : b.filterInv = true) :
    b2.filterInv = true ∧ b2.only_profiles = b.only_profiles := by
  unfold RrrBuilder.parse_match at h
  by_cases hload : b.is_profile_loadable = true
  · rw [if_pos hload] at h
    cases hlook : b.profiles.lookup b.current_profile with
    | none =>
      rw [hlook] at h
      exact Except.noConfusion h
    | some rsb =>
      rw [hlook] at h
      have hsub := Except.ok.inj h
      simp only [Subtype.mk.injEq] at hsub
      rw [← hsub]
      exact ⟨filterInv_updateProfile b _ hload hinv, rfl⟩
  · rw [if_neg hload] at h
    have hsub := Except.ok.inj h
    simp only [Subtype.mk.injEq] at hsub
    rw [← hsub]
    exact ⟨hinv, rfl⟩

theorem loadGo_preserves_filterInv (fs : ConfigFS) :
    ∀ c : LoadCall, ∀ b2 : RrrBuilder,
      (loadGo fs c).map Subtype.val = .ok b2 → c.builder.filterInv = true →
      b2.filterInv = true ∧ b2.only_profiles = c.builder.only_profiles := by
  intro c
  induction c using loadGo.induct fs
  next b path hlook =>
    intro b2 hok hinv
    have hc : RrrBuilder.config fs b path = .ok b2 := hok
    rw [config_none fs b path hlook] at hc
    exact Except.noConfusion hc
  next b path ls hread hv =>
    intro b2 hok hinv
    have hc : RrrBuilder.config fs b path = .ok b2 := hok
    rw [config_visited fs b path ls hread hv] at hc
    have hb := Except.ok.inj hc
    rw [← hb]
    exact ⟨hinv, rfl⟩
  next b path ls hread hv e herr ih =>
    intro b2 hok hinv
    have hc : RrrBuilder.config fs b path = .ok b2 := hok
    rw [config_fresh fs b path ls hread hv] at hc
    unfold RrrBuilder.loadLines at hc
    rw [herr] at hc
    exact Except.noConfusion hc
  next b path ls hread hv bx h2 hrec ih =>
    intro b2 hok hinv
    have hc : RrrBuilder.config fs b path = .ok b2 := hok
    rw [config_fresh fs b path ls hread hv] at hc
    have r := ih b2 hc hinv
    exact ⟨r.1, r.2⟩
  next b file =>
    intro b2 hok hinv
    have hc : RrrBuilder.loadLines fs b file [] = .ok b2 := hok
    rw [loadLines_nil] at hc
    have hb := Except.ok.inj hc
    rw [← hb]
    exact ⟨hinv, rfl⟩
  next b file target ls e herr ih =>
    intro b2 hok hinv
    have hc : RrrBuilder.loadLines fs b file (.includeLine target :: ls) = .ok b2 := hok
    rw [loadLines_cons_include] at hc
    have hcc : RrrBuilder.config fs b target = .error e := by
      unfold RrrBuilder.config
      rw [herr]
      rfl
    rw [hcc] at hc
    exact Except.noConfusion hc
  next b file target ls b1 h1 hok1 e herr ih1 ih2 =>
    intro b2 hok hinv
    have hc : RrrBuilder.loadLines fs b file (.includeLine target :: ls) = .ok b2 := hok
    rw [loadLines_cons_include] at hc
    have hcc : RrrBuilder.config fs b target = .ok b1 := by
      unfold RrrBuilder.config
      rw [hok1]
      rfl
    rw [hcc] at hc
    have hc2 : RrrBuilder.loadLines fs b1 file ls = .ok b2 := hc
    unfold RrrBuilder.loadLines at hc2
    rw [herr] at hc2
    exact Except.noConfusion hc2
  next b file target ls b1 h1 hok1 bx h2 hok2 ih1 ih2 =>
    intro b2 hok hinv
    have hc : RrrBuilder.loadLines fs b file (.includeLine target :: ls) = .ok b2 := hok
    rw [loadLines_cons_include] at hc
    have hcc : RrrBuilder.config fs b target = .ok b1 := by
      unfold RrrBuilder.config
      rw [hok1]
      rfl
    rw [hcc] at hc
    have hc2 : RrrBuilder.loadLines fs b1 file ls = .ok b2 := hc
    have r1 := ih1 b1 hcc hinv
    have r2 := ih2 b2 hc2 r1.1
    exact ⟨r2.1, r2.2.trans r1.2⟩
  next b file target tail =>
    intro b2 hok hinv
    have hc : RrrBuilder.loadLines fs b file (.importLine target :: tail) = .ok b2 := hok
    rw [loadLines_cons_import] at hc
    exact Except.noConfusion hc
  next b file name ls e herr ih =>
    intro b2 hok hinv
    have hc : RrrBuilder.loadLines fs b file (.profileLine name :: ls) = .ok b2 := hok
    rw [loadLines_cons_profile] at hc
    unfold RrrBuilder.loadLines at hc
    rw [herr] at hc
    exact Except.noConfusion hc
  next b file name ls bx h2 hrec ih =>
    intro b2 hok hinv
    have hc : RrrBuilder.loadLines fs b file (.profileLine name :: ls) = .ok b2 := hok
    rw [loadLines_cons_profile] at hc
    have hp := parse_meta_profile_preserves b name hinv
    have r := ih b2 hc hp.1
    exact ⟨r.1, r.2.trans hp.2⟩
  next b file identifier action ls e hperr =>
    intro b2 hok hinv
    have hc : RrrBuilder.loadLines fs b file (.aliasLine identifier action :: ls) = .ok b2 :=
      hok
    rw [loadLines_cons_alias, hperr] at hc
    exact Except.noConfusion hc
  next b file identifier action ls b1 h1 hpok e herr ih =>
    intro b2 hok hinv
    have hc : RrrBuilder.loadLines fs b file (.aliasLine identifier action :: ls) = .ok b2 :=
      hok
    rw [loadLines_cons_alias, hpok] at hc
    have hc2 : RrrBuilder.loadLines fs b1 file ls = .ok b2 := hc
    unfold RrrBuilder.loadLines at hc2
    rw [herr] at hc2
    exact Except.noConfusion hc2
  next b file identifier action ls b1 h1 hpok bx h2 hrec ih =>
    intro b2 hok hinv
    have hc : RrrBuilder.loadLines fs b file (.aliasLine identifier action :: ls) = .ok b2 :=
      hok
    rw [loadLines_cons_alias, hpok] at hc
    have hc2 : RrrBuilder.loadLines fs b1 file ls = .ok b2 := hc
    have hp := parse_alias_preserves b identifier action b1 h1 hpok hinv
    have r := ih b2 hc2 hp.1
    exact ⟨r.1, r.2.trans hp.2⟩
  next b file pattern text line column tail =>
    intro b2 hok hinv
    have hc : RrrBuilder.loadLines fs b file
        (.matchLine pattern (.invalidAlias text) line column :: tail) = .ok b2 := hok
    rw [loadLines_cons_match_invalid] at hc
    exact Except.noConfusion hc
  next b file pattern identifier line column ls e hperr =>
    intro b2 hok hinv
    have hc : RrrBuilder.loadLines fs b file
        (.matchLine pattern (.aliasId identifier) line column :: ls) = .ok b2 := hok
    rw [loadLines_cons_match_alias, hperr] at hc
    exact Except.noConfusion hc
  next b file pattern identifier line column ls b1 h1 hpok e herr ih =>
    intro b2 hok hinv
    have hc : RrrBuilder.loadLines fs b file
        (.matchLine pattern (.aliasId identifier) line column :: ls) = .ok b2 := hok
    rw [loadLines_cons_match_alias, hpok] at hc
    have hc2 : RrrBuilder.loadLines fs b1 file ls = .ok b2 := hc
    unfold RrrBuilder.loadLines at hc2
    rw [herr] at hc2
    exact Except.noConfusion hc2
  next b file pattern identifier line column ls b1 h1 hpok bx h2 hrec ih =>
    intro b2 hok hinv
    have hc : RrrBuilder.loadLines fs b file
        (.matchLine pattern (.aliasId identifier) line column :: ls) = .ok b2 := hok
    rw [loadLines_cons_match_alias, hpok] at hc
    have hc2 : RrrBuilder.loadLines fs b1 file ls = .ok b2 := hc
    have hp := parse_match_preserves b file pattern (.aliasId identifier) line column
      b1 h1 hpok hinv
    have r := ih b2 hc2 hp.1
    exact ⟨r.1, r.2.trans hp.2⟩
  next b file pattern text line column ls e hperr =>
    intro b2 hok hinv
    have hc : RrrBuilder.loadLines fs b file
        (.matchLine pattern (.command text) line column :: ls) = .ok b2 := hok
    rw [loadLines_cons_match_command, hperr] at hc
    exact Except.noConfusion hc
  next b file pattern text line column ls b1 h1 hpok e herr ih =>
    intro b2 hok hinv
    have hc : RrrBuilder.loadLines fs b file
        (.matchLine pattern (.command text) line column :: ls) = .ok b2 := hok
    rw [loadLines_cons_match_command, hpok] at hc
    have hc2 : RrrBuilder.loadLines fs b1 file ls = .ok b2 := hc
    unfold RrrBuilder.loadLines at hc2
    rw [herr] at hc2
    exact Except.noConfusion hc2
  next b file pattern text line column ls b1 h1 hpok bx h2 hrec ih =>
    intro b2 hok hinv
    have hc : RrrBuilder.loadLines fs b file
        (.matchLine pattern (.command text) line column :: ls) = .ok b2 := hok
    rw [loadLines_cons_match_command, hpok] at hc
    have hc2 : RrrBuilder.loadLines fs b1 file ls = .ok b2 := hc
    have hp := parse_match_preserves b file pattern (.command text) line column
      b1 h1 hpok hinv
    have r := ih b2 hc2 hp.1
    exact ⟨r.1, r.2.trans hp.2⟩
  next b file text tail =>
    intro b2 hok hinv
    have hc : RrrBuilder.loadLines fs b file (.invalidMetaLine text :: tail) = .ok b2 := hok
    rw [loadLines_cons_invalid_meta] at hc
    exact Except.noConfusion hc
  next b file text tail =>
    intro b2 hok hinv
    have hc : RrrBuilder.loadLines fs b file (.invalidAliasLine text :: tail) = .ok b2 := hok
    rw [loadLines_cons_invalid_alias] at hc
    exact Except.noConfusion hc

theorem lookup_mem_pair {l : List (ProfileIdentifier × RuleSetBuilder)} {q : String}
    {v : RuleSetBuilder} (h : l.lookup q = some v) : (q, v) ∈ l := by
  induction l with
  | nil => exact Option.noConfusion h
  | cons a t ih =>
    rw [List.lookup] at h
    by_cases hk : q == a.1
    · simp only [hk] at h
      have hv : a.2 = v := Option.some.inj h
      have hq : q = a.1 := eq_of_beq hk
      rw [List.mem_cons]
      left
      rw [hq, ← hv]
    · simp only [Bool.not_eq_true] at hk
      rw [hk] at h
      exact List.mem_cons_of_mem _ (ih h)

theorem filterInv_lookup (b : RrrBuilder) (h : b.filterInv = true)
    (only_profiles : List String) (honly : b.only_profiles = some only_profiles)
    (q : String) (hq : q ∉ only_profiles) :
    b.profiles.lookup q = none ∨
      ∃ bq, b.profiles.lookup q = some bq ∧
        bq.regex_rules = [] ∧ bq.glob_rules = [] ∧ bq.alias_table = [] := by
  cases hlook : b.profiles.lookup q with
  | none => exact Or.inl rfl
  | some bq =>
    refine Or.inr ⟨bq, rfl, ?_⟩
    have hmem : (q, bq) ∈ b.profiles := lookup_mem_pair hlook
    unfold RrrBuilder.filterInv at h
    rw [honly] at h
    rw [List.all_eq_true] at h
    have hx := h (q, bq) hmem
    have hcont : only_profiles.contains q = false := by
      cases hcontc : only_profiles.contains q with
      | false => rfl
      | true => exact absurd (by simpa using hcontc) hq
    rw [hcont] at hx
    simp at hx
    obtain ⟨⟨ha, hr⟩, hg⟩ := hx
    exact ⟨hr, hg, ha⟩

/-- Claim C9: a configuration load under a profile allow-list preserves the
filter invariant — every profile builder outside the allow-list holds no
aliases and no rules — and leaves the allow-list itself unchanged, so after
loading, a profile outside the allow-list either does not exist in the
builder map or carries zero rules and zero aliases; the fresh loader state
produced by RrrBuilder::new satisfies the invariant for every allow-list. -/
theorem c9_profile_filter_discards (fs : ConfigFS) (b b2 : RrrBuilder) (path : String)
    (hinv : b.filterInv = true) (hok : RrrBuilder.config fs b path = .ok b2) :
    b2.filterInv = true ∧ b2.only_profiles = b.only_profiles ∧
    (∀ only_profiles, b2.only_profiles = some only_profiles →
      ∀ q, q ∉ only_profiles →
        b2.profiles.lookup q = none ∨
          ∃ bq, b2.profiles.lookup q = some bq ∧
            bq.regex_rules = [] ∧ bq.glob_rules = [] ∧ bq.alias_table = []) ∧
    (∀ ci only2, (RrrBuilder.new ci only2).filterInv = true) := by
  have r := loadGo_preserves_filterInv fs (.file b path) b2 hok hinv
  refine ⟨r.1, r.2, ?_, ?_⟩
  · intro only_profiles honly q hq
    exact filterInv_lookup b2 r.1 only_profiles honly q hq
  · intro ci only2
    cases only2 with
    | none => rfl
    | some l => simp [RrrBuilder.new, RrrBuilder.filterInv, RuleSetBuilder.new]

/-- Witness for C9: loading a file under the empty allow-list; the default
profile survives with zero rules, and any profile name outside the (empty)
allow-list is either absent or empty in the result. -/
theorem c9_profile_filter_discards_witness :
    c9Builder.filterInv = true ∧
    RrrBuilder.config c9FS c9Builder "a" = .ok c9BuilderLoaded ∧
    (c9BuilderLoaded.filterInv = true ∧
      c9BuilderLoaded.only_profiles = c9Builder.only_profiles ∧
      (∀ only_profiles, c9BuilderLoaded.only_profiles = some only_profiles →
        ∀ q, q ∉ only_profiles →
          c9BuilderLoaded.profiles.lookup q = none ∨
            ∃ bq, c9BuilderLoaded.profiles.lookup q = some bq ∧
              bq.regex_rules = [] ∧ bq.glob_rules = [] ∧ bq.alias_table = []) ∧
      (∀ ci only2, (RrrBuilder.new ci only2).filterInv = true)) := by
  have hok : RrrBuilder.config c9FS c9Builder "a" = .ok c9BuilderLoaded := by
    rw [config_fresh c9FS c9Builder "a" [] rfl (by decide)]
    exact loadLines_nil c9FS (c9Builder.markVisited "a") "a"
  exact ⟨by decide, hok,
    c9_profile_filter_discards c9FS c9Builder c9BuilderLoaded "a" (by decide) hok⟩
